import Mathlib

/-!
Verification of the drum-sheet rhythm timeline engine
(`src/features/drums/ui/SheetPlayView.tsx`).

The engine's data model and algorithms are shallowly embedded below:
patterns are boolean functions per track and step, the duration-override
map is a function from `(voice, step)` to an optional note length, the
rest decomposer's `while` loop is a fuel-indexed structural recursion
(the loop advances by at least one step per iteration, so
`stepsPerBar` units of fuel always suffice), and audio-clock times are
rationals.
-/

namespace DrumSheet

/-- The twelve drum tracks (`TRACKS` in the source). -/
inductive DrumTrackId
  | kick
  | snare
  | rimshot
  | sidestick
  | high_tom
  | mid_tom
  | floor_tom
  | hi_hat_open
  | hi_hat_close
  | foot_hi_hat
  | ride_cymbal
  | crash_cymbal
deriving DecidableEq, Repr

open DrumTrackId

/-- The `TRACKS` constant: the fixed track order of the grid. -/
def TRACKS : List DrumTrackId :=
  [kick, snare, rimshot, sidestick, high_tom, mid_tom, floor_tom,
   hi_hat_open, hi_hat_close, foot_hi_hat, ride_cymbal, crash_cymbal]

/-- The two notation voices (`VoicePart` in the source). -/
inductive VoicePart
  | hand
  | foot
deriving DecidableEq, Repr

/-- `HAND_TRACKS` from the source. -/
def HAND_TRACKS : List DrumTrackId :=
  [hi_hat_open, hi_hat_close, ride_cymbal, crash_cymbal, snare, rimshot,
   sidestick, high_tom, mid_tom, floor_tom]

/-- `FOOT_TRACKS` from the source. -/
def FOOT_TRACKS : List DrumTrackId := [kick, foot_hi_hat]

/-- The track list belonging to a voice (the `voicePart === "hand" ?
HAND_TRACKS : FOOT_TRACKS` idiom used throughout the source). -/
def voiceTracks : VoicePart → List DrumTrackId
  | .hand => HAND_TRACKS
  | .foot => FOOT_TRACKS

/-- The `NoteLengthSteps` union type `1 | 2 | 4 | 8` of the source. -/
inductive NoteLengthSteps
  | thirtySecond
  | sixteenth
  | eighth
  | quarter
deriving DecidableEq, Repr

/-- Numeric value of a note length, in 32nd-note steps
(`STEPS_PER_32ND = 1`, `STEPS_PER_16TH = 2`, `STEPS_PER_8TH = 4`,
`STEPS_PER_QUARTER = 8`). -/
def NoteLengthSteps.steps : NoteLengthSteps → Nat
  | .thirtySecond => 1
  | .sixteenth => 2
  | .eighth => 4
  | .quarter => 8

/-- The seven supported time signatures (`TIME_SIGNATURE_OPTIONS`). -/
inductive TimeSignatureValue
  | ts1_4
  | ts2_4
  | ts3_4
  | ts6_8
  | ts4_4
  | ts6_4
  | ts12_8
deriving DecidableEq, Repr

/-- `resolveStepsPerBar`: the quantization table mapping a time signature
to its 32nd-note steps per bar. -/
def resolveStepsPerBar : TimeSignatureValue → Nat
  | .ts1_4 => 8
  | .ts2_4 => 16
  | .ts3_4 => 24
  | .ts6_8 => 24
  | .ts4_4 => 32
  | .ts6_4 => 48
  | .ts12_8 => 48

/-- `parseTimeSignature`: numerator and denominator of a signature. -/
def parseTimeSignature : TimeSignatureValue → Nat × Nat
  | .ts1_4 => (1, 4)
  | .ts2_4 => (2, 4)
  | .ts3_4 => (3, 4)
  | .ts6_8 => (6, 8)
  | .ts4_4 => (4, 4)
  | .ts6_4 => (6, 4)
  | .ts12_8 => (12, 8)

/-- `getTransportQuarterBeatsPerBar`: `numerator * (4 / denominator)`. -/
def getTransportQuarterBeatsPerBar (timeSignature : TimeSignatureValue) : ℚ :=
  let p := parseTimeSignature timeSignature
  (p.1 : ℚ) * (4 / (p.2 : ℚ))

/-- The sheet state consumed by the timeline engine (`SavedSheet`,
restricted to the fields the engine reads; the pattern is the per-track
boolean hit array, read as a function of track and absolute step). -/
structure SavedSheet where
  bpm : ℚ
  timeSignature : TimeSignatureValue
  stepsPerBar : Nat
  totalBars : Nat
  pattern : DrumTrackId → Nat → Bool

/-- `stepsPerBar * totalBars`, used throughout the source. -/
def SavedSheet.totalSteps (sheet : SavedSheet) : Nat :=
  sheet.stepsPerBar * sheet.totalBars

/-- The duration-override map `Record<string, NoteLengthSteps>` keyed by
`` `${voicePart}:${step}` ``, read as a function of the parsed key. -/
def NoteLengthOverrides : Type :=
  VoicePart → Nat → Option NoteLengthSteps

/-- JS `obj[key] = value` on the override map. -/
def setOverrideEntry (ov : NoteLengthOverrides) (voicePart : VoicePart)
    (step : Nat) (length : NoteLengthSteps) : NoteLengthOverrides :=
  fun v s => if v = voicePart ∧ s = step then some length else ov v s

/-- JS `delete obj[key]` on the override map. -/
def deleteOverrideEntry (ov : NoteLengthOverrides) (voicePart : VoicePart)
    (step : Nat) : NoteLengthOverrides :=
  fun v s => if v = voicePart ∧ s = step then none else ov v s

/-- `isCoveredByDurationOverride`: does some same-voice override entry,
other than the excluded anchor, start strictly before `step`, extend
strictly past it, and have a hit of the given tracks at its anchor?
The source iterates the map's entries and skips those with
`start >= step`, so scanning `start < step` visits the same entries. -/
def isCoveredByDurationOverride (editorSheet : SavedSheet)
    (trackIds : List DrumTrackId) (voicePart : VoicePart) (step : Nat)
    (noteLengthOverrides : NoteLengthOverrides)
    (excludeStartStep : Option Nat) : Bool :=
  (List.range step).any fun start =>
    match noteLengthOverrides voicePart start with
    | none => false
    | some length =>
      !(excludeStartStep == some start) &&
        decide (step < start + length.steps) &&
        trackIds.any fun trackId => editorSheet.pattern trackId start

/-- `hasVoiceBaseEventAtStep`: a literal hit at `step`, or coverage by a
same-voice duration override. -/
def hasVoiceBaseEventAtStep (editorSheet : SavedSheet)
    (trackIds : List DrumTrackId) (voicePart : VoicePart) (step : Nat)
    (noteLengthOverrides : NoteLengthOverrides)
    (excludeStartStep : Option Nat) : Bool :=
  (trackIds.any fun trackId => editorSheet.pattern trackId step) ||
    isCoveredByDurationOverride editorSheet trackIds voicePart step
      noteLengthOverrides excludeStartStep

/-- `hasVoiceAutoSustainAtStep`: implicit sustain is disabled in the
source (`return false`). -/
def hasVoiceAutoSustainAtStep (_editorSheet : SavedSheet)
    (_trackIds : List DrumTrackId) (_voicePart : VoicePart) (_step : Nat)
    (_noteLengthOverrides : NoteLengthOverrides) : Bool :=
  false

/-- `hasVoiceEventAtStep`. -/
def hasVoiceEventAtStep (editorSheet : SavedSheet)
    (trackIds : List DrumTrackId) (voicePart : VoicePart) (step : Nat)
    (noteLengthOverrides : NoteLengthOverrides)
    (excludeStartStep : Option Nat) : Bool :=
  if hasVoiceBaseEventAtStep editorSheet trackIds voicePart step
      noteLengthOverrides excludeStartStep then
    true
  else if excludeStartStep.isSome then
    false
  else
    hasVoiceAutoSustainAtStep editorSheet trackIds voicePart step
      noteLengthOverrides

/-- `hasAnyEventAtStep`: an event of either voice at `step`. -/
def hasAnyEventAtStep (editorSheet : SavedSheet) (step : Nat)
    (noteLengthOverrides : NoteLengthOverrides) : Bool :=
  hasVoiceEventAtStep editorSheet HAND_TRACKS .hand step
      noteLengthOverrides none ||
    hasVoiceEventAtStep editorSheet FOOT_TRACKS .foot step
      noteLengthOverrides none

/-- `hasAnyTrackHitInRange`: scans steps `fromStep..toStep` inclusive. -/
def hasAnyTrackHitInRange (editorSheet : SavedSheet) (fromStep toStep : Nat)
    (noteLengthOverrides : NoteLengthOverrides) : Bool :=
  (List.range (toStep + 1 - fromStep)).any fun i =>
    hasAnyEventAtStep editorSheet (fromStep + i) noteLengthOverrides

/-- `inferAutoLength`: implicit auto length expansion is disabled in the
source (`return STEPS_PER_32ND`). -/
def inferAutoLength (_editorSheet : SavedSheet)
    (_trackIds : List DrumTrackId) (_voicePart : VoicePart)
    (_step _barEndStep : Nat)
    (_noteLengthOverrides : NoteLengthOverrides) : NoteLengthSteps :=
  .thirtySecond

/-- `clampNoteLengthToBar`: shrink `requested` to the largest unit that
fits before `barEndStep` (natural subtraction matches the JS
`Math.max(1, barEndStep - step)` because the result is clamped below
by 1 in both readings). -/
def clampNoteLengthToBar (step barEndStep : Nat)
    (requested : NoteLengthSteps) : NoteLengthSteps :=
  let remaining := max 1 (barEndStep - step)
  if requested.steps ≤ remaining then requested
  else if 8 ≤ remaining then .quarter
  else if 4 ≤ remaining then .eighth
  else if 2 ≤ remaining then .sixteenth
  else .thirtySecond

/-- `resolveLengthForStep`: keeps the requested duration as-is. -/
def resolveLengthForStep (_editorSheet : SavedSheet)
    (_trackIds : List DrumTrackId) (_voicePart : VoicePart)
    (_step _barEndStep : Nat) (requested : NoteLengthSteps)
    (_noteLengthOverrides : NoteLengthOverrides) : NoteLengthSteps :=
  requested

/-- `resolveVoiceStartAtStep`: the tracks of the voice that hit at
`step` together with the resolved (override-or-default, bar-clamped)
note length, or `none` when no track of the voice hits there. -/
def resolveVoiceStartAtStep (editorSheet : SavedSheet)
    (trackIds : List DrumTrackId) (voicePart : VoicePart)
    (step barEndStep : Nat) (noteLengthOverrides : NoteLengthOverrides) :
    Option (List DrumTrackId × NoteLengthSteps) :=
  let activeTracks := trackIds.filter fun trackId =>
    editorSheet.pattern trackId step
  if activeTracks.isEmpty then none
  else
    let requestedLength := (noteLengthOverrides voicePart step).getD
      (inferAutoLength editorSheet trackIds voicePart step barEndStep
        noteLengthOverrides)
    let resolvedLength := clampNoteLengthToBar step barEndStep
      (resolveLengthForStep editorSheet trackIds voicePart step barEndStep
        requestedLength noteLengthOverrides)
    some (activeTracks, resolvedLength)

/-- Membership in the set built by `buildMergedFootStartSteps`: a step of
the bar where both voices start a note of equal resolved length. -/
def buildMergedFootStartSteps (editorSheet : SavedSheet)
    (barStartStep : Nat) (noteLengthOverrides : NoteLengthOverrides)
    (step : Nat) : Bool :=
  let barEndStep := barStartStep + editorSheet.stepsPerBar
  decide (barStartStep ≤ step) && decide (step < barEndStep) &&
    match resolveVoiceStartAtStep editorSheet HAND_TRACKS .hand step
        barEndStep noteLengthOverrides,
      resolveVoiceStartAtStep editorSheet FOOT_TRACKS .foot step
        barEndStep noteLengthOverrides with
    | some handStart, some footStart => decide (handStart.2 = footStart.2)
    | _, _ => false

/-! ## Rest decomposer (`buildVoiceTickables`) -/

/-- One rendered tickable, with the grid-step length it advances the
walk by: a note span (`StaveNote`, carrying the emitted note heads), a
rest span (`createNotationRest`), or a spacer (`GhostNote`; the "32"
spacer of a covered step advances by 1). -/
inductive Tickable
  | note (tracks : List DrumTrackId) (len : Nat)
  | rest (len : Nat)
  | spacer (len : Nat)
deriving DecidableEq, Repr

/-- Step length of a tickable (`getTickableStepLength`). -/
def Tickable.len : Tickable → Nat
  | .note _ len => len
  | .rest len => len
  | .spacer len => len

/-- Is the tickable a note span? -/
def Tickable.isNote : Tickable → Bool
  | .note _ _ => true
  | _ => false

/-- Is the tickable a spacer? -/
def Tickable.isSpacer : Tickable → Bool
  | .spacer _ => true
  | _ => false

/-- Is the tickable a rest span? -/
def Tickable.isRest : Tickable → Bool
  | .rest _ => true
  | _ => false

/-- The tickable that one iteration of the `buildVoiceTickables` loop
emits at bar offset `offset` (the loop then advances by its length). -/
def emitTickableAt (editorSheet : SavedSheet) (trackIds : List DrumTrackId)
    (barStartStep : Nat) (voicePart : VoicePart)
    (noteLengthOverrides : NoteLengthOverrides)
    (mergedFootStartSteps : Nat → Bool) (offset : Nat) : Tickable :=
  let step := barStartStep + offset
  let barEndStep := barStartStep + editorSheet.stepsPerBar
  let activeTracks := trackIds.filter fun trackId =>
    editorSheet.pattern trackId step
  if activeTracks.isEmpty then
    if hasAnyEventAtStep editorSheet step noteLengthOverrides then
      .spacer 1
    else if decide (offset % 8 = 0) && decide (step + 8 - 1 < barEndStep) &&
        !hasAnyTrackHitInRange editorSheet step (step + 8 - 1)
          noteLengthOverrides then
      .rest 8
    else if decide (offset % 4 = 0) &&
        decide (offset + 4 - 1 < editorSheet.stepsPerBar) &&
        !hasAnyTrackHitInRange editorSheet step (step + 4 - 1)
          noteLengthOverrides then
      .rest 4
    else if decide (offset % 2 = 0) &&
        decide (offset + 2 - 1 < editorSheet.stepsPerBar) &&
        !hasAnyTrackHitInRange editorSheet step (step + 2 - 1)
          noteLengthOverrides then
      .rest 2
    else
      .rest 1
  else
    let requestedLength := (noteLengthOverrides voicePart step).getD
      (inferAutoLength editorSheet trackIds voicePart step barEndStep
        noteLengthOverrides)
    let resolvedLength := clampNoteLengthToBar step barEndStep
      (resolveLengthForStep editorSheet trackIds voicePart step barEndStep
        requestedLength noteLengthOverrides)
    if voicePart = .foot && mergedFootStartSteps step then
      .spacer resolvedLength.steps
    else
      let footTracksAtStep := FOOT_TRACKS.filter fun trackId =>
        editorSheet.pattern trackId step
      let noteTracks :=
        if voicePart = .hand && mergedFootStartSteps step &&
            !footTracksAtStep.isEmpty then
          activeTracks ++ footTracksAtStep.filter fun trackId =>
            !activeTracks.contains trackId
        else activeTracks
      .note noteTracks resolvedLength.steps

/-- The `while (offset < stepsPerBar)` walk of `buildVoiceTickables`,
annotated with the bar offset at which each tickable is emitted. The
loop advances by at least one step per iteration, so any fuel of at
least `stepsPerBar - offset` iterations reproduces it exactly. -/
def buildVoiceTickablesFrom (editorSheet : SavedSheet)
    (trackIds : List DrumTrackId) (barStartStep : Nat)
    (voicePart : VoicePart) (noteLengthOverrides : NoteLengthOverrides)
    (mergedFootStartSteps : Nat → Bool) :
    Nat → Nat → List (Nat × Tickable)
  | 0, _ => []
  | fuel + 1, offset =>
    if offset < editorSheet.stepsPerBar then
      let t := emitTickableAt editorSheet trackIds barStartStep voicePart
        noteLengthOverrides mergedFootStartSteps offset
      (offset, t) ::
        buildVoiceTickablesFrom editorSheet trackIds barStartStep voicePart
          noteLengthOverrides mergedFootStartSteps fuel (offset + t.len)
    else []

/-- `buildVoiceTickables`: the full walk of one bar, producing the
ordered tickable sequence for one voice (paired with bar offsets). -/
def buildVoiceTickables (editorSheet : SavedSheet)
    (trackIds : List DrumTrackId) (barStartStep : Nat)
    (voicePart : VoicePart) (noteLengthOverrides : NoteLengthOverrides)
    (mergedFootStartSteps : Nat → Bool) : List (Nat × Tickable) :=
  buildVoiceTickablesFrom editorSheet trackIds barStartStep voicePart
    noteLengthOverrides mergedFootStartSteps editorSheet.stepsPerBar 0

/-! ## Override-map mutations -/

/-- `normalizeNoteLengthOverridesForPattern`: keep only entries with a
valid voice and length (guaranteed here by the types), a step inside
the grid, a span inside the grid and inside its bar, and a same-voice
hit at the anchor step. -/
def normalizeNoteLengthOverridesForPattern (editorSheet : SavedSheet)
    (value : NoteLengthOverrides) : NoteLengthOverrides :=
  fun voicePart step =>
    match value voicePart step with
    | none => none
    | some length =>
      let totalSteps := editorSheet.stepsPerBar * editorSheet.totalBars
      let barStartStep :=
        step / editorSheet.stepsPerBar * editorSheet.stepsPerBar
      let barEndStep := barStartStep + editorSheet.stepsPerBar
      if step < totalSteps ∧ step + length.steps ≤ totalSteps ∧
          step + length.steps ≤ barEndStep ∧
          (voiceTracks voicePart).any fun trackId =>
            editorSheet.pattern trackId step then
        some length
      else none

/-- `handleStepClick` without the drag bookkeeping and toasts: toggling
the grid cell `(trackId, step)`. A rejected toggle (the cell is covered
by a same-voice duration span, or the new note would cross the bar end
or collide with a same-voice event) returns the state unchanged. -/
def handleStepClick (active : SavedSheet) (ov : NoteLengthOverrides)
    (inputNoteLength : NoteLengthSteps) (trackId : DrumTrackId)
    (step : Nat) : SavedSheet × NoteLengthOverrides :=
  let wasActive := active.pattern trackId step
  let voicePart : VoicePart :=
    if FOOT_TRACKS.contains trackId then .foot else .hand
  let vts := voiceTracks voicePart
  let barStartStep := step / active.stepsPerBar * active.stepsPerBar
  let barEndStep := barStartStep + active.stepsPerBar
  let requestedLength := inputNoteLength
  let hasOtherVoiceTrackAtStep := vts.any fun id =>
    id ≠ trackId && active.pattern id step
  let hasSameVoicePatternAtStep := vts.any fun id => active.pattern id step
  let coveredBySameVoiceDurationAtStep :=
    isCoveredByDurationOverride active vts voicePart step ov none
  let coveredBySameVoiceSustainAtStep :=
    !hasSameVoicePatternAtStep &&
      (coveredBySameVoiceDurationAtStep ||
        hasVoiceAutoSustainAtStep active vts voicePart step ov)
  if !wasActive && coveredBySameVoiceSustainAtStep then (active, ov)
  else if !wasActive && !hasSameVoicePatternAtStep &&
      decide (barEndStep < step + requestedLength.steps) then (active, ov)
  else if !wasActive && !hasSameVoicePatternAtStep &&
      ((List.range (min (step + requestedLength.steps) barEndStep - step)).any
        fun i => hasVoiceEventAtStep active vts voicePart (step + i) ov none)
      then (active, ov)
  else
    let nextSheet : SavedSheet :=
      { active with pattern := fun t s =>
          if t = trackId ∧ s = step then !wasActive else active.pattern t s }
    let nextOverrides :=
      if wasActive then
        if hasOtherVoiceTrackAtStep then ov
        else deleteOverrideEntry ov voicePart step
      else if !hasSameVoicePatternAtStep then
        setOverrideEntry ov voicePart step requestedLength
      else ov
    (nextSheet, nextOverrides)

/-- The per-step body of `applyInputNoteLengthToSelection` — the spec's
`setOverride(voice, step, length)` — specialized to a selection that
spans every track of the voice. The Bool result reports whether the
length was applied; on a skip/rejection the source restores
`prevLength`, so the map is returned unchanged. -/
def applyInputNoteLengthAtStep (active : SavedSheet)
    (ov : NoteLengthOverrides) (voicePart : VoicePart) (step : Nat)
    (nextLength : NoteLengthSteps) : NoteLengthOverrides × Bool :=
  let vts := voiceTracks voicePart
  if !(vts.any fun trackId => active.pattern trackId step) then (ov, false)
  else
    let barStartStep := step / active.stepsPerBar * active.stepsPerBar
    let barEndStep := barStartStep + active.stepsPerBar
    if decide (barEndStep < step + nextLength.steps) then (ov, false)
    else
      let tentative := setOverrideEntry ov voicePart step nextLength
      let conflict :=
        (List.range (min (step + nextLength.steps) barEndStep - (step + 1))).any
          fun i => hasVoiceEventAtStep active vts voicePart (step + 1 + i)
            tentative (some step)
      if conflict then (ov, false)
      else
        (fun v s =>
          if v = voicePart ∧ step + 1 ≤ s ∧
              s < min (step + nextLength.steps) barEndStep then none
          else tentative v s,
         true)

/-! ## Selection and clipboard -/

/-- `BeatSelectionRange`: a rectangular (track, step) selection. -/
structure BeatSelectionRange where
  trackStart : Nat
  trackEnd : Nat
  stepStart : Nat
  stepEnd : Nat

/-- `normalizeSelectionRange`. -/
def normalizeSelectionRange (selection : BeatSelectionRange) :
    BeatSelectionRange :=
  { trackStart := min selection.trackStart selection.trackEnd
    trackEnd := max selection.trackStart selection.trackEnd
    stepStart := min selection.stepStart selection.stepEnd
    stepEnd := max selection.stepStart selection.stepEnd }

/-- `TRACKS[i].id` (every access in the source is in bounds). -/
def trackAt (i : Nat) : DrumTrackId :=
  TRACKS.getD i .kick

/-- The index of a track in `TRACKS`. -/
def trackIndexOf : DrumTrackId → Nat
  | .kick => 0
  | .snare => 1
  | .rimshot => 2
  | .sidestick => 3
  | .high_tom => 4
  | .mid_tom => 5
  | .floor_tom => 6
  | .hi_hat_open => 7
  | .hi_hat_close => 8
  | .foot_hi_hat => 9
  | .ride_cymbal => 10
  | .crash_cymbal => 11

/-- `BeatClipboardBlock`: the serialized sub-grid (`values row col`)
plus the copied overrides keyed by step offset from the selection
origin. -/
structure BeatClipboardBlock where
  width : Nat
  height : Nat
  values : Nat → Nat → Bool
  noteLengthOverrides : NoteLengthOverrides

/-- `copySelectedBeatBlock`: serialize the selected boolean sub-grid and
the overrides whose anchor lies in the selected step range, whose voice
has a selected track, and whose anchor has a hit on a selected track of
that voice; override positions are stored relative to the selection
origin. -/
def copySelectedBeatBlock (editorSheet : SavedSheet)
    (ov : NoteLengthOverrides) (rawSelection : BeatSelectionRange) :
    BeatClipboardBlock :=
  let selection := normalizeSelectionRange rawSelection
  let height := selection.trackEnd - selection.trackStart + 1
  let width := selection.stepEnd - selection.stepStart + 1
  let values := fun row col =>
    editorSheet.pattern (trackAt (selection.trackStart + row))
      (selection.stepStart + col)
  let selectedTrackIds :=
    (TRACKS.drop selection.trackStart).take
      (selection.trackEnd + 1 - selection.trackStart)
  let selectedHandTracks := selectedTrackIds.filter fun trackId =>
    HAND_TRACKS.contains trackId
  let selectedFootTracks := selectedTrackIds.filter fun trackId =>
    FOOT_TRACKS.contains trackId
  let copiedOverrides : NoteLengthOverrides := fun voicePart rel =>
    if rel < width then
      match ov voicePart (selection.stepStart + rel) with
      | none => none
      | some length =>
        let selectedVoiceTracks :=
          match voicePart with
          | .hand => selectedHandTracks
          | .foot => selectedFootTracks
        if !selectedVoiceTracks.isEmpty &&
            (selectedVoiceTracks.any fun trackId =>
              editorSheet.pattern trackId (selection.stepStart + rel)) then
          some length
        else none
    else none
  ⟨width, height, values, copiedOverrides⟩

/-- `pasteSelectedBeatBlock`: write the clipboard sub-grid at the
selection anchor (or track 0 / the cursor step without a selection),
clipped to the grid; for each voice with an affected track, clear the
overrides of the pasted step range and re-apply the clipboard's
relative overrides, then re-normalize. `none` when the clipped region
is empty (the source returns `false`). The pattern write is expressed
through `trackIndexOf`, which inverts the source's `TRACKS[...]` row
indexing. -/
def pasteSelectedBeatBlock (active : SavedSheet) (ov : NoteLengthOverrides)
    (copied : BeatClipboardBlock) (selection? : Option BeatSelectionRange)
    (currentStep : Nat) : Option (SavedSheet × NoteLengthOverrides) :=
  let totalStepsInSheet := active.stepsPerBar * active.totalBars
  let targetTrack := match selection? with
    | some sel => (normalizeSelectionRange sel).trackStart
    | none => 0
  let targetStep := match selection? with
    | some sel => (normalizeSelectionRange sel).stepStart
    | none => currentStep
  let appliedHeight := min copied.height (TRACKS.length - targetTrack)
  let appliedWidth := min copied.width (totalStepsInSheet - targetStep)
  if appliedHeight < 1 ∨ appliedWidth < 1 then none
  else
    let nextEditor : SavedSheet :=
      { active with pattern := fun t s =>
          if targetTrack ≤ trackIndexOf t ∧
              trackIndexOf t < targetTrack + appliedHeight ∧
              targetStep ≤ s ∧ s < targetStep + appliedWidth then
            copied.values (trackIndexOf t - targetTrack) (s - targetStep)
          else active.pattern t s }
    let affectedTrackIds := (TRACKS.drop targetTrack).take appliedHeight
    let handAffected := affectedTrackIds.any fun trackId =>
      HAND_TRACKS.contains trackId
    let footAffected := affectedTrackIds.any fun trackId =>
      FOOT_TRACKS.contains trackId
    let voiceAffected : VoicePart → Bool := fun v =>
      match v with
      | .hand => handAffected
      | .foot => footAffected
    let nextOverrides : NoteLengthOverrides := fun v s =>
      if voiceAffected v ∧ targetStep ≤ s ∧ s < targetStep + appliedWidth then
        copied.noteLengthOverrides v (s - targetStep)
      else ov v s
    some (nextEditor,
      normalizeNoteLengthOverridesForPattern nextEditor nextOverrides)

/-! ## Transport scheduler -/

/-- `clampStepIndex`. -/
def clampStepIndex (step totalSteps : Nat) : Nat :=
  if totalSteps ≤ 1 then 0 else min (totalSteps - 1) step

/-- `getStepDurationMs` (clamped BPM, bar milliseconds divided by the
steps per bar). -/
def getStepDurationMs (sheet : SavedSheet) : ℚ :=
  let bpm := max 40 (min 240 sheet.bpm)
  let stepsPerBar := max 1 sheet.stepsPerBar
  let barMs := 60000 / bpm *
    max 1 (getTransportQuarterBeatsPerBar sheet.timeSignature)
  barMs / stepsPerBar

/-- The bar duration in seconds implied by `getStepDurationMs`
(its `barMs` local divided by 1000). -/
def barDurationSeconds (sheet : SavedSheet) : ℚ :=
  60 / max 40 (min 240 sheet.bpm) *
    max 1 (getTransportQuarterBeatsPerBar sheet.timeSignature)

/-- `playStep`: the tracks whose hit at `step` is triggered. -/
def playStep (sheet : SavedSheet) (step : Nat) : List DrumTrackId :=
  TRACKS.filter fun track => sheet.pattern track step

/-- One scheduled trigger batch: the triggered tracks, the step, and the
audio-clock timestamp it is scheduled at. -/
abbrev SchedEvent := List DrumTrackId × Nat × ℚ

/-- `lookAheadSec = 0.24`. -/
def lookAheadSec : ℚ := 0.24

/-- `maxQueuedSteps = Math.max(8, Math.ceil((lookAheadSec /
Math.max(0.0005, stepSec)) * 3))`. -/
def maxQueuedSteps (stepSec : ℚ) : Nat :=
  max 8 (Int.toNat ⌈lookAheadSec / max 0.0005 stepSec * 3⌉)

/-- The `while (nextScheduledStepTime <= nowSec + lookAheadSec && guard <
maxQueuedSteps)` loop of `schedule`, with the guard budget as fuel:
returns the emitted trigger events and the final
`(nextScheduledStep, nextScheduledStepTime)` pair. -/
def scheduleSteps (sheet : SavedSheet) (totalSteps : Nat)
    (stepSec deadline : ℚ) : Nat → Nat → ℚ → List SchedEvent × Nat × ℚ
  | 0, nextStep, nextTime => ([], nextStep, nextTime)
  | guard + 1, nextStep, nextTime =>
    if nextTime ≤ deadline then
      let rest := scheduleSteps sheet totalSteps stepSec deadline guard
        ((nextStep + 1) % totalSteps) (nextTime + stepSec)
      ((playStep sheet nextStep, nextStep, nextTime) :: rest.1, rest.2)
    else ([], nextStep, nextTime)

/-- One invocation of the `schedule` callback (its pattern-trigger
loop), at audio-clock time `nowSec`. -/
def scheduleTick (sheet : SavedSheet) (totalSteps : Nat) (stepSec : ℚ)
    (nowSec : ℚ) (nextStep : Nat) (nextTime : ℚ) :
    List SchedEvent × Nat × ℚ :=
  scheduleSteps sheet totalSteps stepSec (nowSec + lookAheadSec)
    (maxQueuedSteps stepSec) nextStep nextTime

/-- The scheduling loop across successive callback invocations, one per
`nowSec` in the list, threading `(nextScheduledStep,
nextScheduledStepTime)`: all trigger events in emission order. -/
def runScheduler (sheet : SavedSheet) (totalSteps : Nat) (stepSec : ℚ) :
    List ℚ → Nat → ℚ → List SchedEvent
  | [], _, _ => []
  | nowSec :: laterNows, nextStep, nextTime =>
    let r := scheduleTick sheet totalSteps stepSec nowSec nextStep nextTime
    r.1 ++ runScheduler sheet totalSteps stepSec laterNows r.2.1 r.2.2

/-! ## Playback start and stop -/

/-- The transport state produced by the start branch of
`togglePlayback`: the scheduled count-in click times, the transport
origin, and the initialized scheduler cursor. -/
structure PlaybackStart where
  countInClicks : List ℚ
  transportStartTime : ℚ
  transportStartStep : Nat
  nextScheduledStep : Nat
  nextScheduledStepTime : ℚ
  countInActive : Bool
  running : Bool

/-- The start branch of `togglePlayback` (after `stopPlaybackTransport`
has reset the refs): with count-in, schedule 4 clicks spaced `60/bpm`
seconds from `now + leadInSec` and start the transport after them;
without, start at `now + leadInSec`. -/
def startPlayback (sheet : SavedSheet)
    (countInEnabled metronomeSyncEnabled : Bool) (nowSec : ℚ)
    (currentStep : Nat) : PlaybackStart :=
  let startStep := clampStepIndex currentStep
    (sheet.stepsPerBar * sheet.totalBars)
  let leadInSec : ℚ := if metronomeSyncEnabled then 0.16 else 0.06
  if !countInEnabled then
    let startAt := nowSec + leadInSec
    ⟨[], startAt, startStep, startStep, startAt, false, true⟩
  else
    let bpm := max 40 (min 240 sheet.bpm)
    let beatSec := 60 / bpm
    let countInStartAt := nowSec + leadInSec
    let transportStartAt := countInStartAt + beatSec * 4
    ⟨[countInStartAt + beatSec * 0, countInStartAt + beatSec * 1,
      countInStartAt + beatSec * 2, countInStartAt + beatSec * 3],
      transportStartAt, startStep, startStep, transportStartAt, true, true⟩

/-- The transport-scheduler state touched by `stopPlaybackTransport`:
the scheduling-loop timer, the scheduler cursor, the pending count-in
timers and audio sources, and the synced-metronome tick state. -/
structure TransportState where
  timer : Option Nat
  currentStep : Nat
  transportStartTime : Option ℚ
  transportStartStep : Nat
  nextScheduledStep : Nat
  nextScheduledStepTime : ℚ
  lastUiStepSyncAt : ℚ
  countInTimers : List Nat
  countInSources : List Nat
  countInActive : Bool
  running : Bool
  syncedMetronomeEnabled : Bool
  syncedMetronomeTickIndex : Nat
  syncedMetronomeNextTickTime : ℚ
deriving DecidableEq

/-- `stopSyncedMetronome`. -/
def stopSyncedMetronome (st : TransportState) : TransportState :=
  { st with
    syncedMetronomeEnabled := false
    syncedMetronomeTickIndex := 0
    syncedMetronomeNextTickTime := 0 }

/-- `stopPlaybackTransport`: clear the loop timer, reset the transport
origin, freeze the scheduler cursor at `currentStep`, cancel the
count-in timers and pending count-in sources, stop the synced
metronome, and leave the `Idle` flags. -/
def stopPlaybackTransport (st : TransportState) : TransportState :=
  let st1 : TransportState :=
    { st with
      timer := none
      transportStartTime := none
      transportStartStep := st.currentStep
      nextScheduledStep := st.currentStep
      nextScheduledStepTime := 0
      lastUiStepSyncAt := 0
      countInTimers := [] }
  let st2 := stopSyncedMetronome st1
  { st2 with
    countInSources := []
    countInActive := false
    running := false }

/-! ## Derived definitions used by the theorems -/

/-- The voice a track belongs to, as computed by `handleStepClick`
(`FOOT_TRACKS.includes(trackId) ? "foot" : "hand"`). -/
def voiceOf (trackId : DrumTrackId) : VoicePart :=
  if FOOT_TRACKS.contains trackId then .foot else .hand

/-- Default event used with `List.getD`. -/
def noEvent : SchedEvent := ([], 0, 0)

/-- The span part of the §3 `DurationOverride` invariant for one voice:
no override span of the voice strictly contains a hit start of the same
voice. -/
def SpanInvariant (sheet : SavedSheet) (voicePart : VoicePart)
    (ov : NoteLengthOverrides) : Prop :=
  ∀ a l, ov voicePart a = some l →
    ∀ u, a < u → u < a + l.steps →
      ∀ t ∈ voiceTracks voicePart, sheet.pattern t u = false

/-- The anchoring part of the §3 invariant: every override entry sits
at a step where some track of its voice has a hit. -/
def AnchoredInvariant (sheet : SavedSheet) (ov : NoteLengthOverrides) :
    Prop :=
  ∀ v a l, ov v a = some l →
    ∃ t ∈ voiceTracks v, sheet.pattern t a = true

/-- Modelled from the claim's words, for comparison with the source's
walk: "the accepted rest is the largest length L such that
[step, step+L) contains no hit-start across all tracks of both voices
in the bar", with lengths attempted in the order 8, 4, 2, 1 (a length
is only considered when it fits before the bar end). -/
def claimRestLength (sheet : SavedSheet) (barStartStep offset : Nat) :
    Nat :=
  let step := barStartStep + offset
  let barEndStep := barStartStep + sheet.stepsPerBar
  let ok : Nat → Bool := fun L =>
    decide (step + L ≤ barEndStep) &&
      !((List.range L).any fun i =>
        TRACKS.any fun t => sheet.pattern t (step + i))
  if ok 8 then 8 else if ok 4 then 4 else if ok 2 then 2 else 1

/-- The override conditions that `normalizeNoteLengthOverridesForPattern`
enforces: every entry is inside the grid, spans at most to the end of
its bar (and of the grid), and is anchored at a same-voice hit. -/
def NormalizedInvariant (sheet : SavedSheet) (ov : NoteLengthOverrides) :
    Prop :=
  ∀ v a l, ov v a = some l →
    a < sheet.totalSteps ∧ a + l.steps ≤ sheet.totalSteps ∧
      a + l.steps ≤
        a / sheet.stepsPerBar * sheet.stepsPerBar + sheet.stepsPerBar ∧
      ∃ t ∈ voiceTracks v, sheet.pattern t a = true

/-- A concrete one-bar 4/4 sheet whose only hit is a closed hi-hat at
step 0 (used as a clipboard fixture: the hi-hat row is outside the
selection below). -/
def sheetHiHat : SavedSheet :=
  { bpm := 90
    timeSignature := .ts4_4
    stepsPerBar := 32
    totalBars := 1
    pattern := fun t s => t = DrumTrackId.hi_hat_close ∧ s = 0 }

/-- A concrete one-bar 4/4 sheet whose only hit is a snare at step 0. -/
def sheetSnare : SavedSheet :=
  { bpm := 90
    timeSignature := .ts4_4
    stepsPerBar := 32
    totalBars := 1
    pattern := fun t s => t = DrumTrackId.snare ∧ s = 0 }

/-- A concrete override map: a sixteenth-length hand override anchored
at step 0. -/
def ovHand0 : NoteLengthOverrides := fun v s =>
  if v = VoicePart.hand ∧ s = 0 then some NoteLengthSteps.sixteenth
  else none

/-- The selection covering only the snare row (track index 1) at
step 0. -/
def selSnare0 : BeatSelectionRange := ⟨1, 1, 0, 0⟩

/-! ## Basic length facts -/

theorem NoteLengthSteps.steps_pos (l : NoteLengthSteps) : 1 ≤ l.steps := by
  cases l <;> simp [NoteLengthSteps.steps]

theorem NoteLengthSteps.steps_le (l : NoteLengthSteps) : l.steps ≤ 8 := by
  cases l <;> simp [NoteLengthSteps.steps]

theorem clampNoteLengthToBar_pos (step barEndStep : Nat)
    (requested : NoteLengthSteps) :
    1 ≤ (clampNoteLengthToBar step barEndStep requested).steps :=
  NoteLengthSteps.steps_pos _

theorem clampNoteLengthToBar_le (step barEndStep : Nat)
    (requested : NoteLengthSteps) (h : step < barEndStep) :
    (clampNoteLengthToBar step barEndStep requested).steps ≤
      barEndStep - step := by
  have hrem : max 1 (barEndStep - step) = barEndStep - step := by omega
  cases requested <;>
      simp only [clampNoteLengthToBar, hrem, NoteLengthSteps.steps] <;>
    split_ifs <;> simp only [NoteLengthSteps.steps] <;> omega

theorem clampNoteLengthToBar_le_requested (step barEndStep : Nat)
    (requested : NoteLengthSteps) :
    (clampNoteLengthToBar step barEndStep requested).steps ≤
      requested.steps := by
  cases requested <;> simp only [clampNoteLengthToBar, NoteLengthSteps.steps] <;>
    split_ifs <;> simp only [NoteLengthSteps.steps] <;> omega

/-! ## Voice membership and event-predicate characterizations -/

theorem mem_voiceTracks_iff (t : DrumTrackId) (v : VoicePart) :
    t ∈ voiceTracks v ↔ v = voiceOf t := by
  cases t <;> cases v <;> decide

theorem mem_voiceTracks_self (t : DrumTrackId) :
    t ∈ voiceTracks (voiceOf t) := by
  cases t <;> decide

theorem voiceTracks_total (t : DrumTrackId) :
    t ∈ voiceTracks .hand ∨ t ∈ voiceTracks .foot := by
  cases t <;> decide

theorem isCoveredByDurationOverride_iff (editorSheet : SavedSheet)
    (trackIds : List DrumTrackId) (voicePart : VoicePart) (step : Nat)
    (ov : NoteLengthOverrides) (excludeStartStep : Option Nat) :
    isCoveredByDurationOverride editorSheet trackIds voicePart step ov
        excludeStartStep = true ↔
      ∃ start l, start < step ∧ ov voicePart start = some l ∧
        excludeStartStep ≠ some start ∧ step < start + l.steps ∧
        ∃ t ∈ trackIds, editorSheet.pattern t start = true := by
  unfold isCoveredByDurationOverride
  rw [List.any_eq_true]
  constructor
  · rintro ⟨start, hmem, hcond⟩
    rw [List.mem_range] at hmem
    rcases hov : ov voicePart start with _ | l
    · rw [hov] at hcond
      simp at hcond
    · rw [hov] at hcond
      simp only [Bool.and_eq_true, Bool.not_eq_true', beq_eq_false_iff_ne,
        decide_eq_true_eq, List.any_eq_true] at hcond
      exact ⟨start, l, hmem, hov, hcond.1.1, hcond.1.2, hcond.2⟩
  · rintro ⟨start, l, hlt, hov, hne, hspan, t, ht, hpat⟩
    refine ⟨start, List.mem_range.mpr hlt, ?_⟩
    rw [hov]
    simp only [Bool.and_eq_true, Bool.not_eq_true', beq_eq_false_iff_ne,
      decide_eq_true_eq, List.any_eq_true]
    exact ⟨⟨hne, hspan⟩, t, ht, hpat⟩

theorem hasVoiceEventAtStep_eq_base (editorSheet : SavedSheet)
    (trackIds : List DrumTrackId) (voicePart : VoicePart) (step : Nat)
    (ov : NoteLengthOverrides) (excludeStartStep : Option Nat) :
    hasVoiceEventAtStep editorSheet trackIds voicePart step ov
        excludeStartStep =
      hasVoiceBaseEventAtStep editorSheet trackIds voicePart step ov
        excludeStartStep := by
  unfold hasVoiceEventAtStep hasVoiceAutoSustainAtStep
  rcases h : hasVoiceBaseEventAtStep editorSheet trackIds voicePart step ov
      excludeStartStep <;>
    simp [h]

theorem hasVoiceBaseEventAtStep_iff (editorSheet : SavedSheet)
    (trackIds : List DrumTrackId) (voicePart : VoicePart) (step : Nat)
    (ov : NoteLengthOverrides) (excludeStartStep : Option Nat) :
    hasVoiceBaseEventAtStep editorSheet trackIds voicePart step ov
        excludeStartStep = true ↔
      (∃ t ∈ trackIds, editorSheet.pattern t step = true) ∨
        isCoveredByDurationOverride editorSheet trackIds voicePart step ov
          excludeStartStep = true := by
  unfold hasVoiceBaseEventAtStep
  simp [List.any_eq_true]

/-! ## C8: stop() is idempotent and total -/

/-- C8: `stop()` is idempotent and total: a second call yields exactly
the same Idle state as the first, and a single call halts the
scheduling-loop timer, cancels the pending count-in timers and count-in
click sources, freezes `currentStep` as the resume point
(`transportStartStep = nextScheduledStep = currentStep`), and stops the
synced metronome. -/
theorem stopPlaybackTransport_idempotent (st : TransportState) :
    stopPlaybackTransport (stopPlaybackTransport st) =
        stopPlaybackTransport st ∧
      (stopPlaybackTransport st).running = false ∧
      (stopPlaybackTransport st).timer = none ∧
      (stopPlaybackTransport st).countInTimers = [] ∧
      (stopPlaybackTransport st).countInSources = [] ∧
      (stopPlaybackTransport st).countInActive = false ∧
      (stopPlaybackTransport st).transportStartStep = st.currentStep ∧
      (stopPlaybackTransport st).nextScheduledStep = st.currentStep ∧
      (stopPlaybackTransport st).currentStep = st.currentStep ∧
      (stopPlaybackTransport st).syncedMetronomeEnabled = false :=
  ⟨rfl, rfl, rfl, rfl, rfl, rfl, rfl, rfl, rfl, rfl⟩

/-! ## C6: count-in scheduling -/

/-- C6: starting playback with count-in enabled schedules exactly 4
audio-clock click events at `now + leadInSeconds + k * (60/bpm)` for
`k = 0..3`, sets `transportStartTime` to the count-in start plus
`4 × beatSeconds`, initializes `nextScheduledStep = startStep` and
`nextScheduledStepTime = transportStartTime`, and every click precedes
the transport start (so no pattern step fires before the 4 clicks
complete); with count-in disabled, `transportStartTime = now +
leadInSeconds` and no clicks are scheduled. -/
theorem startPlayback_countIn (sheet : SavedSheet)
    (metronomeSyncEnabled : Bool) (nowSec : ℚ) (currentStep : Nat) :
    (startPlayback sheet true metronomeSyncEnabled nowSec
        currentStep).countInClicks.length = 4 ∧
      (∀ k, k < 4 →
        (startPlayback sheet true metronomeSyncEnabled nowSec
            currentStep).countInClicks.getD k 0 =
          nowSec + (if metronomeSyncEnabled then (0.16 : ℚ) else 0.06) +
            60 / max 40 (min 240 sheet.bpm) * k) ∧
      (startPlayback sheet true metronomeSyncEnabled nowSec
          currentStep).transportStartTime =
        nowSec + (if metronomeSyncEnabled then (0.16 : ℚ) else 0.06) +
          60 / max 40 (min 240 sheet.bpm) * 4 ∧
      (startPlayback sheet true metronomeSyncEnabled nowSec
          currentStep).nextScheduledStep =
        clampStepIndex currentStep (sheet.stepsPerBar * sheet.totalBars) ∧
      (startPlayback sheet true metronomeSyncEnabled nowSec
          currentStep).nextScheduledStepTime =
        (startPlayback sheet true metronomeSyncEnabled nowSec
          currentStep).transportStartTime ∧
      (∀ c ∈ (startPlayback sheet true metronomeSyncEnabled nowSec
          currentStep).countInClicks,
        c < (startPlayback sheet true metronomeSyncEnabled nowSec
          currentStep).transportStartTime) ∧
      (startPlayback sheet false metronomeSyncEnabled nowSec
          currentStep).transportStartTime =
        nowSec + (if metronomeSyncEnabled then (0.16 : ℚ) else 0.06) ∧
      (startPlayback sheet false metronomeSyncEnabled nowSec
          currentStep).countInClicks = [] ∧
      (startPlayback sheet false metronomeSyncEnabled nowSec
          currentStep).nextScheduledStep =
        clampStepIndex currentStep (sheet.stepsPerBar * sheet.totalBars) ∧
      (startPlayback sheet false metronomeSyncEnabled nowSec
          currentStep).nextScheduledStepTime =
        nowSec + (if metronomeSyncEnabled then (0.16 : ℚ) else 0.06) := by
  have hbpm : (0 : ℚ) < max 40 (min 240 sheet.bpm) :=
    lt_of_lt_of_le (by norm_num) (le_max_left _ _)
  have hbeat : (0 : ℚ) < 60 / max 40 (min 240 sheet.bpm) :=
    div_pos (by norm_num) hbpm
  refine ⟨rfl, ?_, ?_, rfl, rfl, ?_, rfl, rfl, rfl, rfl⟩
  · intro k hk
    interval_cases k <;> simp [startPlayback, List.getD]
  · simp [startPlayback]
  · intro c hc
    simp [startPlayback] at hc
    have h4 : 60 / max 40 (min 240 sheet.bpm) * (0 : ℚ) <
          60 / max 40 (min 240 sheet.bpm) * 4 ∧
        60 / max 40 (min 240 sheet.bpm) * (1 : ℚ) <
          60 / max 40 (min 240 sheet.bpm) * 4 ∧
        60 / max 40 (min 240 sheet.bpm) * (2 : ℚ) <
          60 / max 40 (min 240 sheet.bpm) * 4 ∧
        60 / max 40 (min 240 sheet.bpm) * (3 : ℚ) <
          60 / max 40 (min 240 sheet.bpm) * 4 := by
      refine ⟨?_, ?_, ?_, ?_⟩ <;>
        exact mul_lt_mul_of_pos_left (by norm_num) hbeat
    rcases hc with h | h | h | h <;> rw [h] <;> simp [startPlayback] <;>
      nlinarith [h4.1, h4.2.1, h4.2.2.1, h4.2.2.2]

/-! ## C2: the lookahead scheduling loop -/

theorem scheduleSteps_length_le (sheet : SavedSheet) (totalSteps : Nat)
    (stepSec deadline : ℚ) :
    ∀ (guard nextStep : Nat) (nextTime : ℚ),
      (scheduleSteps sheet totalSteps stepSec deadline guard nextStep
        nextTime).1.length ≤ guard := by
  intro guard
  induction guard with
  | zero => intro s t; simp [scheduleSteps]
  | succ g ih =>
    intro s t
    simp only [scheduleSteps]
    split
    · simpa using ih ((s + 1) % totalSteps) (t + stepSec)
    · simp

theorem scheduleSteps_deadline (sheet : SavedSheet) (totalSteps : Nat)
    (stepSec deadline : ℚ) :
    ∀ (guard nextStep : Nat) (nextTime : ℚ),
      ∀ ev ∈ (scheduleSteps sheet totalSteps stepSec deadline guard nextStep
        nextTime).1, ev.2.2 ≤ deadline := by
  intro guard
  induction guard with
  | zero => intro s t ev hev; simp [scheduleSteps] at hev
  | succ g ih =>
    intro s t ev hev
    simp only [scheduleSteps] at hev
    split at hev
    · rcases List.mem_cons.mp hev with h | h
      · subst h; assumption
      · exact ih ((s + 1) % totalSteps) (t + stepSec) ev h
    · simp at hev

theorem scheduleSteps_spec (sheet : SavedSheet) (totalSteps : Nat)
    (stepSec deadline : ℚ) (hT : 0 < totalSteps) :
    ∀ (guard nextStep : Nat) (nextTime : ℚ), nextStep < totalSteps →
      (∀ k, k < (scheduleSteps sheet totalSteps stepSec deadline guard
          nextStep nextTime).1.length →
        (scheduleSteps sheet totalSteps stepSec deadline guard nextStep
            nextTime).1.getD k noEvent =
          (playStep sheet ((nextStep + k) % totalSteps),
            (nextStep + k) % totalSteps, nextTime + k * stepSec)) ∧
      (scheduleSteps sheet totalSteps stepSec deadline guard nextStep
          nextTime).2.1 =
        (nextStep + (scheduleSteps sheet totalSteps stepSec deadline guard
          nextStep nextTime).1.length) % totalSteps ∧
      (scheduleSteps sheet totalSteps stepSec deadline guard nextStep
          nextTime).2.2 =
        nextTime + (scheduleSteps sheet totalSteps stepSec deadline guard
          nextStep nextTime).1.length * stepSec ∧
      (scheduleSteps sheet totalSteps stepSec deadline guard nextStep
        nextTime).2.1 < totalSteps := by
  intro guard
  induction guard with
  | zero =>
    intro s t hs
    refine ⟨by simp [scheduleSteps], ?_, by simp [scheduleSteps], ?_⟩
    · simp [scheduleSteps, Nat.mod_eq_of_lt hs]
    · simpa [scheduleSteps] using hs
  | succ g ih =>
    intro s t hs
    by_cases ht : t ≤ deadline
    · obtain ⟨ihev, ihs, iht, ihlt⟩ :=
        ih ((s + 1) % totalSteps) (t + stepSec) (Nat.mod_lt _ hT)
      simp only [scheduleSteps, if_pos ht]
      refine ⟨?_, ?_, ?_, ihlt⟩
      · intro k hk
        cases k with
        | zero =>
          simp [List.getD, Nat.mod_eq_of_lt hs]
        | succ k =>
          simp only [List.length_cons, Nat.add_lt_add_iff_right] at hk
          have hval := ihev k hk
          have harg : (s + 1 + k) % totalSteps =
              (s + (k + 1)) % totalSteps := by
            congr 1
            omega
          simp only [List.getD_cons_succ, hval, Nat.mod_add_mod,
            Prod.mk.injEq, harg, true_and]
          push_cast
          ring
      · simp only [List.length_cons, ihs, Nat.mod_add_mod]
        congr 1
        omega
      · simp only [List.length_cons, iht]
        push_cast
        ring
    · simp only [scheduleSteps, if_neg ht]
      refine ⟨by simp, by simp [Nat.mod_eq_of_lt hs], by simp, hs⟩

theorem runScheduler_spec (sheet : SavedSheet) (totalSteps : Nat)
    (stepSec : ℚ) (hT : 0 < totalSteps) :
    ∀ (nows : List ℚ) (nextStep : Nat) (nextTime : ℚ),
      nextStep < totalSteps →
      ∀ k, k < (runScheduler sheet totalSteps stepSec nows nextStep
          nextTime).length →
        (runScheduler sheet totalSteps stepSec nows nextStep
            nextTime).getD k noEvent =
          (playStep sheet ((nextStep + k) % totalSteps),
            (nextStep + k) % totalSteps, nextTime + k * stepSec) := by
  intro nows
  induction nows with
  | nil => intro s t hs k hk; simp [runScheduler] at hk
  | cons nowSec laterNows ih =>
    intro s t hs k hk
    obtain ⟨hev, hstate, htime, hlt⟩ :=
      scheduleSteps_spec sheet totalSteps stepSec (nowSec + lookAheadSec) hT
        (maxQueuedSteps stepSec) s t hs
    simp only [runScheduler, scheduleTick] at hk ⊢
    generalize hR : scheduleSteps sheet totalSteps stepSec
      (nowSec + lookAheadSec) (maxQueuedSteps stepSec) s t =
        R at hev hstate htime hlt hk ⊢
    by_cases hkn : k < R.1.length
    · rw [List.getD_append _ _ _ _ hkn]
      exact hev k hkn
    · push_neg at hkn
      rw [List.getD_append_right _ _ _ _ hkn]
      have hrec := ih R.2.1 R.2.2 hlt (k - R.1.length)
        (by simp only [List.length_append] at hk; omega)
      rw [hrec, hstate, htime, Nat.mod_add_mod]
      have harg : s + R.1.length + (k - R.1.length) = s + k := by omega
      rw [harg]
      simp only [Prod.mk.injEq, true_and]
      rw [add_assoc]
      congr 1
      rw [Nat.cast_sub hkn]
      ring

/-- C2: during playback, each invocation of the `schedule` callback
loops while `nextScheduledStepTime ≤ audioClockNow + lookaheadSeconds`
(lookahead `0.24` s) under the `maxQueuedSteps` iteration guard,
triggering all active-track hits (`playStep`) of `nextScheduledStep` at
timestamp `nextScheduledStepTime`, then advancing
`nextScheduledStep := (nextScheduledStep + 1) % totalSteps` and
`nextScheduledStepTime += stepDurationSeconds`, where
`stepDurationSeconds = barDurationSeconds / stepsPerBar`; consequently,
across the whole run, the `k`-th scheduled step after start is
`(startStep + k) % totalSteps` at time `transportStartTime +
k * stepDurationSeconds`, and `nextScheduledStep` always remains in
`[0, totalSteps)`. -/
theorem schedule_lookahead_loop (sheet : SavedSheet)
    (transportStartTime : ℚ) (startStep : Nat) (nows : List ℚ)
    (hT : 0 < sheet.totalSteps) (hs : startStep < sheet.totalSteps) :
    (∀ (nowSec nextTime : ℚ) (nextStep : Nat),
      nextStep < sheet.totalSteps →
      (∀ k, k < (scheduleTick sheet sheet.totalSteps
          (getStepDurationMs sheet / 1000) nowSec nextStep
          nextTime).1.length →
        (scheduleTick sheet sheet.totalSteps
            (getStepDurationMs sheet / 1000) nowSec nextStep
            nextTime).1.getD k noEvent =
          (playStep sheet ((nextStep + k) % sheet.totalSteps),
            (nextStep + k) % sheet.totalSteps,
            nextTime + k * (getStepDurationMs sheet / 1000))) ∧
      (∀ ev ∈ (scheduleTick sheet sheet.totalSteps
          (getStepDurationMs sheet / 1000) nowSec nextStep nextTime).1,
        ev.2.2 ≤ nowSec + lookAheadSec) ∧
      (scheduleTick sheet sheet.totalSteps
          (getStepDurationMs sheet / 1000) nowSec nextStep
          nextTime).1.length ≤
        maxQueuedSteps (getStepDurationMs sheet / 1000) ∧
      (scheduleTick sheet sheet.totalSteps
          (getStepDurationMs sheet / 1000) nowSec nextStep
          nextTime).2.1 =
        (nextStep + (scheduleTick sheet sheet.totalSteps
          (getStepDurationMs sheet / 1000) nowSec nextStep
          nextTime).1.length) % sheet.totalSteps ∧
      (scheduleTick sheet sheet.totalSteps
          (getStepDurationMs sheet / 1000) nowSec nextStep
          nextTime).2.2 =
        nextTime + (scheduleTick sheet sheet.totalSteps
          (getStepDurationMs sheet / 1000) nowSec nextStep
          nextTime).1.length * (getStepDurationMs sheet / 1000) ∧
      (scheduleTick sheet sheet.totalSteps
        (getStepDurationMs sheet / 1000) nowSec nextStep nextTime).2.1 <
        sheet.totalSteps) ∧
    getStepDurationMs sheet / 1000 =
      barDurationSeconds sheet / (max 1 sheet.stepsPerBar : ℕ) ∧
    (∀ k, k < (runScheduler sheet sheet.totalSteps
        (getStepDurationMs sheet / 1000) nows startStep
        transportStartTime).length →
      (runScheduler sheet sheet.totalSteps
          (getStepDurationMs sheet / 1000) nows startStep
          transportStartTime).getD k noEvent =
        (playStep sheet ((startStep + k) % sheet.totalSteps),
          (startStep + k) % sheet.totalSteps,
          transportStartTime + k * (getStepDurationMs sheet / 1000))) := by
  refine ⟨?_, ?_, ?_⟩
  · intro nowSec nextTime nextStep hlt
    obtain ⟨hev, hstate, htime, hfin⟩ :=
      scheduleSteps_spec sheet sheet.totalSteps
        (getStepDurationMs sheet / 1000) (nowSec + lookAheadSec) hT
        (maxQueuedSteps (getStepDurationMs sheet / 1000)) nextStep nextTime
        hlt
    exact ⟨hev,
      scheduleSteps_deadline sheet sheet.totalSteps _ _ _ nextStep nextTime,
      scheduleSteps_length_le sheet sheet.totalSteps _ _ _ nextStep nextTime,
      hstate, htime, hfin⟩
  · have hbpm : (0 : ℚ) < max 40 (min 240 sheet.bpm) :=
      lt_of_lt_of_le (by norm_num) (le_max_left _ _)
    have hspb : (0 : ℚ) < ((max 1 sheet.stepsPerBar : ℕ) : ℚ) := by
      have : (1 : ℕ) ≤ max 1 sheet.stepsPerBar := le_max_left _ _
      exact_mod_cast Nat.lt_of_lt_of_le Nat.zero_lt_one this
    unfold getStepDurationMs barDurationSeconds
    field_simp
    ring
  · exact runScheduler_spec sheet sheet.totalSteps _ hT nows startStep
      transportStartTime hs

/-- Witness for C2: the standard 4/4 sheet with a kick at step 0, run
from step 0 — the instantiated loop properties hold. -/
theorem schedule_lookahead_loop_witness :
    getStepDurationMs
        { bpm := 90, timeSignature := .ts4_4, stepsPerBar := 32,
          totalBars := 1, pattern := fun t s => t = .kick ∧ s = 0 } / 1000 =
      barDurationSeconds
          { bpm := 90, timeSignature := .ts4_4, stepsPerBar := 32,
            totalBars := 1, pattern := fun t s => t = .kick ∧ s = 0 } /
        (max 1 (32 : ℕ) : ℕ) :=
  (schedule_lookahead_loop
    { bpm := 90, timeSignature := .ts4_4, stepsPerBar := 32,
      totalBars := 1, pattern := fun t s => t = .kick ∧ s = 0 }
    0 0 [] (by norm_num [SavedSheet.totalSteps])
    (by norm_num [SavedSheet.totalSteps])).2.1

/-- Witness for C6 at the spec's scenario: 90 BPM, metronome sync off,
`now = 0`, cursor at step 0 — the four clicks land `2/3 = 0.666…`
seconds apart. -/
theorem startPlayback_countIn_witness :
    (startPlayback
        { bpm := 90, timeSignature := .ts4_4, stepsPerBar := 32,
          totalBars := 1, pattern := fun _ _ => false }
        true false 0 0).countInClicks.length = 4 ∧
      (startPlayback
        { bpm := 90, timeSignature := .ts4_4, stepsPerBar := 32,
          totalBars := 1, pattern := fun _ _ => false }
        true false 0 0).countInClicks.getD 1 0 = 0.06 + 2 / 3 := by
  refine ⟨(startPlayback_countIn _ false 0 0).1, ?_⟩
  have h := (startPlayback_countIn
    { bpm := 90, timeSignature := .ts4_4, stepsPerBar := 32,
      totalBars := 1, pattern := fun _ _ => false }
    false 0 0).2.1 1 (by norm_num)
  rw [h]
  norm_num

/-! ## C3: setOverride rejection semantics -/

theorem setOverrideEntry_ne (ov : NoteLengthOverrides)
    (voicePart : VoicePart) (step : Nat) (l : NoteLengthSteps)
    (v : VoicePart) (s : Nat) (h : ¬(v = voicePart ∧ s = step)) :
    setOverrideEntry ov voicePart step l v s = ov v s := by
  simp [setOverrideEntry, h]

/-- C3: setting a duration override for a voice at a step (the per-step
body of `applyInputNoteLengthToSelection`) is rejected exactly when no
hit of that voice exists at the step, when `step + length` exceeds the
end of the containing bar, or when the open span
`(step, step + length)` contains the start of another same-voice hit —
a hit of the other voice inside the span never rejects, because the
conditions only mention the given voice's tracks and overrides; on
rejection the override map is returned unchanged (and the pattern is
never touched). Stated for states satisfying the §3 span invariant. -/
theorem setOverride_rejection (sheet : SavedSheet)
    (ov : NoteLengthOverrides) (voicePart : VoicePart) (step : Nat)
    (nextLength : NoteLengthSteps)
    (hInv : SpanInvariant sheet voicePart ov) :
    ((applyInputNoteLengthAtStep sheet ov voicePart step nextLength).2 =
        false ↔
      ((∀ t ∈ voiceTracks voicePart, sheet.pattern t step = false) ∨
        step / sheet.stepsPerBar * sheet.stepsPerBar + sheet.stepsPerBar <
          step + nextLength.steps ∨
        ∃ u, step < u ∧ u < step + nextLength.steps ∧
          ∃ t ∈ voiceTracks voicePart, sheet.pattern t u = true)) ∧
    ((applyInputNoteLengthAtStep sheet ov voicePart step nextLength).2 =
        false →
      (applyInputNoteLengthAtStep sheet ov voicePart step nextLength).1 =
        ov) := by
  cases h1 : (voiceTracks voicePart).any fun trackId =>
      sheet.pattern trackId step with
  | false =>
    have hres : applyInputNoteLengthAtStep sheet ov voicePart step
        nextLength = (ov, false) := by
      simp only [applyInputNoteLengthAtStep]
      rw [h1]
      rfl
    rw [hres]
    refine ⟨⟨fun _ => ?_, fun _ => rfl⟩, fun _ => rfl⟩
    left
    intro t ht
    have := List.any_eq_false.mp h1 t ht
    simpa using this
  | true =>
    by_cases hbar : step / sheet.stepsPerBar * sheet.stepsPerBar +
        sheet.stepsPerBar < step + nextLength.steps
    · have hres : applyInputNoteLengthAtStep sheet ov voicePart step
          nextLength = (ov, false) := by
        simp only [applyInputNoteLengthAtStep]
        rw [h1]
        simp [hbar]
      rw [hres]
      exact ⟨⟨fun _ => Or.inr (Or.inl hbar), fun _ => rfl⟩, fun _ => rfl⟩
    · have hmin : min (step + nextLength.steps)
          (step / sheet.stepsPerBar * sheet.stepsPerBar +
            sheet.stepsPerBar) = step + nextLength.steps :=
        min_eq_left (le_of_not_lt hbar)
      obtain ⟨t0, ht0, hpat0⟩ :
          ∃ t ∈ voiceTracks voicePart, sheet.pattern t step = true := by
        simpa [List.any_eq_true] using h1
      cases h3 : (List.range (min (step + nextLength.steps)
          (step / sheet.stepsPerBar * sheet.stepsPerBar +
            sheet.stepsPerBar) - (step + 1))).any fun i =>
            hasVoiceEventAtStep sheet (voiceTracks voicePart) voicePart
              (step + 1 + i)
              (setOverrideEntry ov voicePart step nextLength)
              (some step) with
      | false =>
        have hres : (applyInputNoteLengthAtStep sheet ov voicePart step
            nextLength).2 = true := by
          simp only [applyInputNoteLengthAtStep]
          rw [h1]
          simp only [Bool.not_true, Bool.false_eq_true, if_false,
            decide_eq_true_eq]
          rw [if_neg hbar, h3]
          rfl
        rw [hres]
        constructor
        · constructor
          · intro hfa
            exact absurd hfa (by simp)
          · rintro (hno | hmid | ⟨u, hu1, hu2, t, ht, hpat⟩)
            · exact absurd hpat0 (by simp [hno t0 ht0])
            · exact absurd hmid hbar
            · exfalso
              have hcontra : (List.range (min (step + nextLength.steps)
                  (step / sheet.stepsPerBar * sheet.stepsPerBar +
                    sheet.stepsPerBar) - (step + 1))).any (fun i =>
                    hasVoiceEventAtStep sheet (voiceTracks voicePart)
                      voicePart (step + 1 + i)
                      (setOverrideEntry ov voicePart step nextLength)
                      (some step)) = true := by
                rw [List.any_eq_true]
                refine ⟨u - (step + 1), ?_, ?_⟩
                · rw [List.mem_range, hmin]
                  omega
                · have hu : step + 1 + (u - (step + 1)) = u := by omega
                  rw [hu, hasVoiceEventAtStep_eq_base,
                    hasVoiceBaseEventAtStep_iff]
                  exact Or.inl ⟨t, ht, hpat⟩
              rw [h3] at hcontra
              exact absurd hcontra (by simp)
        · intro hfalse
          exact absurd hfalse (by simp)
      | true =>
        have hres : applyInputNoteLengthAtStep sheet ov voicePart step
            nextLength = (ov, false) := by
          simp only [applyInputNoteLengthAtStep]
          rw [h1]
          simp only [Bool.not_true, Bool.false_eq_true, if_false,
            decide_eq_true_eq]
          rw [if_neg hbar, h3]
          rfl
        rw [hres]
        refine ⟨⟨fun _ => ?_, fun _ => rfl⟩, fun _ => rfl⟩
        right
        right
        obtain ⟨i, hi, hval⟩ := List.any_eq_true.mp h3
        rw [List.mem_range, hmin] at hi
        set u := step + 1 + i with hu
        have huspan : step < u ∧ u < step + nextLength.steps := by omega
        rw [hasVoiceEventAtStep_eq_base, hasVoiceBaseEventAtStep_iff]
          at hval
        rcases hval with ⟨t, ht, hpat⟩ | hcov
        · exact ⟨u, huspan.1, huspan.2, t, ht, hpat⟩
        · rw [isCoveredByDurationOverride_iff] at hcov
          obtain ⟨a, la, halt, hova, hane, haspan, t, ht, hpat⟩ := hcov
          have hastep : a ≠ step := fun h => hane (by rw [h])
          rw [setOverrideEntry_ne ov voicePart step nextLength voicePart a
            (fun hc => hastep hc.2)] at hova
          rcases Nat.lt_or_ge step a with hlt | hge
          · exact ⟨a, hlt, lt_of_lt_of_le halt (by omega), t, ht, hpat⟩
          · have halt2 : a < step := lt_of_le_of_ne hge hastep
            have := hInv a la hova step halt2 (by omega) t0 ht0
            exact absurd hpat0 (by simp [this])

/-- Witness for C3, the spec's scenario: one 4/4 bar, kick (foot voice)
hit at step 0 and snare (hand voice) hit at step 4 —
`setOverride(foot, 0, quarter)` is not rejected by the hand hit inside
the span, while with the kick (same voice) also at step 4 the analogous
request is rejected. -/
theorem setOverride_rejection_witness :
    (applyInputNoteLengthAtStep
        { bpm := 90, timeSignature := .ts4_4, stepsPerBar := 32,
          totalBars := 1,
          pattern := fun t s =>
            (t = .kick ∧ s = 0) ∨ (t = .snare ∧ s = 4) }
        (fun _ _ => none) .foot 0 .quarter).2 = true ∧
      (applyInputNoteLengthAtStep
        { bpm := 90, timeSignature := .ts4_4, stepsPerBar := 32,
          totalBars := 1,
          pattern := fun t s =>
            (t = .kick ∧ s = 0) ∨ (t = .kick ∧ s = 4) }
        (fun _ _ => none) .foot 0 .quarter).2 = false := by
  constructor
  · have h := (setOverride_rejection
      { bpm := 90, timeSignature := .ts4_4, stepsPerBar := 32,
        totalBars := 1,
        pattern := fun t s => (t = .kick ∧ s = 0) ∨ (t = .snare ∧ s = 4) }
      (fun _ _ => none) .foot 0 .quarter
      (fun a l hov => by simp at hov)).1
    cases hx : (applyInputNoteLengthAtStep
        { bpm := 90, timeSignature := .ts4_4, stepsPerBar := 32,
          totalBars := 1,
          pattern := fun t s =>
            (t = .kick ∧ s = 0) ∨ (t = .snare ∧ s = 4) }
        (fun _ _ => none) .foot 0 .quarter).2 with
    | true => rfl
    | false =>
      exfalso
      rcases h.mp hx with hno | hmid | ⟨u, hu1, hu2, t, ht, hpat⟩
      · have := hno .kick (by decide)
        simp at this
      · revert hmid
        decide
      · have hu8 : u < 8 := by
          simpa [NoteLengthSteps.steps] using hu2
        have ht2 : t = DrumTrackId.kick ∨ t = DrumTrackId.foot_hi_hat := by
          simpa [voiceTracks, FOOT_TRACKS] using ht
        simp only [decide_eq_true_eq] at hpat
        rcases hpat with ⟨htk, hu0⟩ | ⟨hts, _⟩
        · omega
        · rcases ht2 with h | h <;> rw [h] at hts <;> exact absurd hts
            (by decide)
  · have h := (setOverride_rejection
      { bpm := 90, timeSignature := .ts4_4, stepsPerBar := 32,
        totalBars := 1,
        pattern := fun t s => (t = .kick ∧ s = 0) ∨ (t = .kick ∧ s = 4) }
      (fun _ _ => none) .foot 0 .quarter
      (fun a l hov => by simp at hov)).1
    refine h.mpr (Or.inr (Or.inr ⟨4, by norm_num, ?_, .kick, by decide,
      by decide⟩))
    simp [NoteLengthSteps.steps]

/-! ## `handleStepClick` branch characterizations -/

theorem clampNoteLengthToBar_thirtySecond (step barEndStep : Nat) :
    clampNoteLengthToBar step barEndStep .thirtySecond = .thirtySecond := by
  simp [clampNoteLengthToBar, NoteLengthSteps.steps]

/-- Toggling an active cell always proceeds: the cell is cleared, and
the voice's override at the step is deleted unless another track of the
voice still has a hit there. -/
theorem handleStepClick_toggleOff (sheet : SavedSheet)
    (ov : NoteLengthOverrides) (inputNoteLength : NoteLengthSteps)
    (trackId : DrumTrackId) (step : Nat)
    (hw : sheet.pattern trackId step = true) :
    handleStepClick sheet ov inputNoteLength trackId step =
      ({ sheet with pattern := fun t s =>
          if t = trackId ∧ s = step then false else sheet.pattern t s },
        if (voiceTracks (voiceOf trackId)).any fun id =>
            id ≠ trackId && sheet.pattern id step then ov
        else deleteOverrideEntry ov (voiceOf trackId) step) := by
  simp [handleStepClick, voiceOf, hw]

/-- Toggling an inactive cell whose voice has no hit at the step: the
three rejection guards, then the accepted write of the cell and the
requested-length override. -/
theorem handleStepClick_toggleOnIsolated (sheet : SavedSheet)
    (ov : NoteLengthOverrides) (inputNoteLength : NoteLengthSteps)
    (trackId : DrumTrackId) (step : Nat)
    (hw : sheet.pattern trackId step = false)
    (hiso : ((voiceTracks (voiceOf trackId)).any fun id =>
      sheet.pattern id step) = false) :
    handleStepClick sheet ov inputNoteLength trackId step =
      (if isCoveredByDurationOverride sheet (voiceTracks (voiceOf trackId))
          (voiceOf trackId) step ov none then (sheet, ov)
      else if step / sheet.stepsPerBar * sheet.stepsPerBar +
          sheet.stepsPerBar < step + inputNoteLength.steps then (sheet, ov)
      else if (List.range (min (step + inputNoteLength.steps)
          (step / sheet.stepsPerBar * sheet.stepsPerBar +
            sheet.stepsPerBar) - step)).any fun i =>
          hasVoiceEventAtStep sheet (voiceTracks (voiceOf trackId))
            (voiceOf trackId) (step + i) ov none then (sheet, ov)
      else ({ sheet with pattern := fun t s =>
            if t = trackId ∧ s = step then true else sheet.pattern t s },
          setOverrideEntry ov (voiceOf trackId) step inputNoteLength)) := by
  have hsame : ((voiceTracks (if FOOT_TRACKS.contains trackId then
      VoicePart.foot else VoicePart.hand)).any fun id =>
        sheet.pattern id step) = false := by
    simpa [voiceOf] using hiso
  simp only [handleStepClick, hw, hsame, hasVoiceAutoSustainAtStep,
    Bool.not_false, Bool.true_and, Bool.or_false, Bool.and_true,
    decide_eq_true_eq, voiceOf]
  split_ifs <;> simp_all

/-- Toggling an inactive cell at a step where another track of the same
voice already has a hit: accepted with no override change. -/
theorem handleStepClick_toggleOnJoined (sheet : SavedSheet)
    (ov : NoteLengthOverrides) (inputNoteLength : NoteLengthSteps)
    (trackId : DrumTrackId) (step : Nat)
    (hw : sheet.pattern trackId step = false)
    (hsame : ((voiceTracks (voiceOf trackId)).any fun id =>
      sheet.pattern id step) = true) :
    handleStepClick sheet ov inputNoteLength trackId step =
      ({ sheet with pattern := fun t s =>
          if t = trackId ∧ s = step then true else sheet.pattern t s },
        ov) := by
  have hsame' : ((voiceTracks (if FOOT_TRACKS.contains trackId then
      VoicePart.foot else VoicePart.hand)).any fun id =>
        sheet.pattern id step) = true := by
    simpa [voiceOf] using hsame
  simp only [handleStepClick, hw, hsame', hasVoiceAutoSustainAtStep,
    Bool.not_false, Bool.not_true, Bool.true_and, Bool.false_and,
    Bool.and_false, Bool.or_false, Bool.false_eq_true, if_false]

theorem barEnd_le_totalSteps (sheet : SavedSheet) (a : Nat)
    (hspb : 0 < sheet.stepsPerBar) (ha : a < sheet.totalSteps) :
    a / sheet.stepsPerBar * sheet.stepsPerBar + sheet.stepsPerBar ≤
      sheet.totalSteps := by
  have hq : a / sheet.stepsPerBar < sheet.totalBars := by
    rw [Nat.div_lt_iff_lt_mul hspb]
    calc a < sheet.totalSteps := ha
    _ = sheet.totalBars * sheet.stepsPerBar := by
        rw [SavedSheet.totalSteps]; ring
  calc a / sheet.stepsPerBar * sheet.stepsPerBar + sheet.stepsPerBar =
      (a / sheet.stepsPerBar + 1) * sheet.stepsPerBar := by ring
  _ ≤ sheet.totalBars * sheet.stepsPerBar :=
      Nat.mul_le_mul_right _ (by omega)
  _ = sheet.totalSteps := by rw [SavedSheet.totalSteps]; ring

/-! ## C9: overrides derived and cleaned on pattern change -/

/-- C9: overrides follow the pattern. (a) Toggling off a hit at a step
where no other track of the same voice has a hit deletes that voice's
override at the step and changes no other entry. (b) An accepted toggle
that creates a newly isolated hit stores the explicit requested input
length as the override, so the stored override is the 1-step default
exactly when the explicit input length is 1 step. (c) Wherever a hit
exists but no override is stored, the resolved length is the 1-step
(32nd) default. -/
theorem overrides_follow_pattern (sheet : SavedSheet)
    (ov : NoteLengthOverrides) (inputNoteLength : NoteLengthSteps)
    (trackId : DrumTrackId) (step : Nat) :
    (sheet.pattern trackId step = true →
      (∀ t ∈ voiceTracks (voiceOf trackId), t ≠ trackId →
        sheet.pattern t step = false) →
      (handleStepClick sheet ov inputNoteLength trackId step).2
          (voiceOf trackId) step = none ∧
        ∀ v s, ¬(v = voiceOf trackId ∧ s = step) →
          (handleStepClick sheet ov inputNoteLength trackId step).2 v s =
            ov v s) ∧
    (sheet.pattern trackId step = false →
      (∀ t ∈ voiceTracks (voiceOf trackId),
        sheet.pattern t step = false) →
      (handleStepClick sheet ov inputNoteLength trackId step).1.pattern
          trackId step = true →
      (handleStepClick sheet ov inputNoteLength trackId step).2
          (voiceOf trackId) step = some inputNoteLength ∧
        ((handleStepClick sheet ov inputNoteLength trackId step).2
            (voiceOf trackId) step = some .thirtySecond ↔
          inputNoteLength = .thirtySecond)) ∧
    (∀ (voicePart : VoicePart) (s barEndStep : Nat)
      (r : List DrumTrackId × NoteLengthSteps),
      ov voicePart s = none →
      resolveVoiceStartAtStep sheet (voiceTracks voicePart) voicePart s
        barEndStep ov = some r →
      r.2 = .thirtySecond) := by
  refine ⟨?_, ?_, ?_⟩
  · intro hw hother
    have hany : ((voiceTracks (voiceOf trackId)).any fun id =>
        id ≠ trackId && sheet.pattern id step) = false := by
      rw [List.any_eq_false]
      intro t ht
      by_cases htid : t = trackId
      · simp [htid]
      · simp [htid, hother t ht htid]
    rw [handleStepClick_toggleOff sheet ov inputNoteLength trackId step hw,
      hany]
    constructor
    · simp [deleteOverrideEntry]
    · intro v s hvs
      simp [deleteOverrideEntry, hvs]
  · intro hw hiso hacc
    have hisoB : ((voiceTracks (voiceOf trackId)).any fun id =>
        sheet.pattern id step) = false := by
      rw [List.any_eq_false]
      intro t ht
      simp [hiso t ht]
    rw [handleStepClick_toggleOnIsolated sheet ov inputNoteLength trackId
      step hw hisoB] at hacc ⊢
    split_ifs at hacc ⊢ with hg1 hg2 hg3
    · exact absurd hacc (by simp [hw])
    · exact absurd hacc (by simp [hw])
    · exact absurd hacc (by simp [hw])
    · constructor
      · simp [setOverrideEntry]
      · simp [setOverrideEntry]
  · intro voicePart s barEndStep r hnone hres
    simp only [resolveVoiceStartAtStep, hnone, Option.getD_none,
      inferAutoLength, resolveLengthForStep] at hres
    split_ifs at hres with hemp
    simp only [Option.some.injEq] at hres
    rw [← hres]
    exact clampNoteLengthToBar_thirtySecond _ _

/-- Witness for C9: one 4/4 bar with a kick hit at step 0 carrying a
quarter override — toggling the kick off deletes the foot override at
step 0. -/
theorem overrides_follow_pattern_witness :
    (handleStepClick
        { bpm := 90, timeSignature := .ts4_4, stepsPerBar := 32,
          totalBars := 1, pattern := fun t s => t = .kick ∧ s = 0 }
        (fun v s => if v = .foot ∧ s = 0 then some .quarter else none)
        .thirtySecond .kick 0).2 (voiceOf .kick) 0 = none :=
  ((overrides_follow_pattern
    { bpm := 90, timeSignature := .ts4_4, stepsPerBar := 32,
      totalBars := 1, pattern := fun t s => t = .kick ∧ s = 0 }
    (fun v s => if v = .foot ∧ s = 0 then some .quarter else none)
    .thirtySecond .kick 0).1 (by decide) (by decide)).1

/-! ## C4: the override invariant after public mutations -/

/-- Counterexample to C4 as stated: one 4/4 bar, kick hits at steps 0
and 12, and a quarter-length foot override at step 0 (a state in which
the full §3 invariant holds — the last conjunct). Copying the kick cell
at step 12 and pasting it at kick step 4 leaves the override
`foot:0 = quarter` in place (normalization keeps it: it stays anchored,
in-bar and validly sized), yet its span `[0, 8)` now contains the
same-voice kick hit start pasted at step 4 — the pasted state violates
the no-contained-hit-start conjunct of the claimed invariant. -/
theorem paste_violates_span_invariant :
    ((pasteSelectedBeatBlock
        { bpm := 90, timeSignature := .ts4_4, stepsPerBar := 32,
          totalBars := 1,
          pattern := fun t s => t = .kick ∧ (s = 0 ∨ s = 12) }
        (fun v s => if v = .foot ∧ s = 0 then some .quarter else none)
        (copySelectedBeatBlock
          { bpm := 90, timeSignature := .ts4_4, stepsPerBar := 32,
            totalBars := 1,
            pattern := fun t s => t = .kick ∧ (s = 0 ∨ s = 12) }
          (fun v s => if v = .foot ∧ s = 0 then some .quarter else none)
          ⟨0, 0, 12, 12⟩)
        (some ⟨0, 0, 4, 4⟩) 0).map fun r => r.2 .foot 0) =
      some (some .quarter) ∧
    ((pasteSelectedBeatBlock
        { bpm := 90, timeSignature := .ts4_4, stepsPerBar := 32,
          totalBars := 1,
          pattern := fun t s => t = .kick ∧ (s = 0 ∨ s = 12) }
        (fun v s => if v = .foot ∧ s = 0 then some .quarter else none)
        (copySelectedBeatBlock
          { bpm := 90, timeSignature := .ts4_4, stepsPerBar := 32,
            totalBars := 1,
            pattern := fun t s => t = .kick ∧ (s = 0 ∨ s = 12) }
          (fun v s => if v = .foot ∧ s = 0 then some .quarter else none)
          ⟨0, 0, 12, 12⟩)
        (some ⟨0, 0, 4, 4⟩) 0).map fun r =>
          r.1.pattern .kick 4 && FOOT_TRACKS.contains .kick) =
      some true ∧
    (0 < 4 ∧ 4 < 0 + NoteLengthSteps.quarter.steps) ∧
    SpanInvariant
      { bpm := 90, timeSignature := .ts4_4, stepsPerBar := 32,
        totalBars := 1,
        pattern := fun t s => t = .kick ∧ (s = 0 ∨ s = 12) }
      .foot (fun v s => if v = .foot ∧ s = 0 then some .quarter else
        none) := by
  refine ⟨by decide, by decide, by decide, ?_⟩
  intro a l hov u hu1 hu2 t ht
  have ha : a = 0 := by
    by_contra hne
    simp [hne] at hov
  subst ha
  have hl : NoteLengthSteps.quarter = l := by simpa using hov
  subst hl
  simp only [NoteLengthSteps.steps] at hu2
  have ht2 : t = DrumTrackId.kick ∨ t = DrumTrackId.foot_hi_hat := by
    simpa [voiceTracks, FOOT_TRACKS] using ht
  rcases ht2 with h | h
  · subst h
    simp only [decide_eq_false_iff_not]
    rintro ⟨-, hu0 | hu12⟩ <;> omega
  · subst h
    simp

/-- C4 amended: after every public mutation, every entry of the
override map is anchored at a step where at least one track of its
voice has a hit, has a valid length, and has a span that stays inside
its bar and inside the grid. The mutations that re-normalize (length
application, paste, delete, sheet meta edit) satisfy this because
normalization always outputs such a map (first conjunct), and a cell
toggle at a grid step preserves it (second conjunct). The claim's
further conjunct — that no span contains the start of another
same-voice hit — is not maintained: paste can leave an override whose
span covers a newly pasted same-voice hit (see the counterexample). -/
theorem override_invariant_after_mutations :
    (∀ (sheet : SavedSheet) (ov : NoteLengthOverrides),
      NormalizedInvariant sheet
        (normalizeNoteLengthOverridesForPattern sheet ov)) ∧
    (∀ (sheet : SavedSheet) (ov : NoteLengthOverrides)
      (inputNoteLength : NoteLengthSteps) (trackId : DrumTrackId)
      (step : Nat), step < sheet.totalSteps →
      NormalizedInvariant sheet ov →
      NormalizedInvariant
        (handleStepClick sheet ov inputNoteLength trackId step).1
        (handleStepClick sheet ov inputNoteLength trackId step).2) := by
  constructor
  · intro sheet ov v a l hov
    simp only [normalizeNoteLengthOverridesForPattern] at hov
    rcases hx : ov v a with _ | l'
    · simp only [hx] at hov
      exact absurd hov (by simp)
    · simp only [hx] at hov
      split_ifs at hov with hc
      · obtain ⟨h1, h2, h3, h4⟩ := hc
        obtain ⟨t, ht, hpat⟩ := List.any_eq_true.mp h4
        injection hov with hll
        subst hll
        exact ⟨h1, h2, h3, t, ht, hpat⟩
  · intro sheet ov inputNoteLength trackId step hstep hN
    cases hw : sheet.pattern trackId step with
    | true =>
      rw [handleStepClick_toggleOff sheet ov inputNoteLength trackId step
        hw]
      cases hOB : (voiceTracks (voiceOf trackId)).any (fun id =>
          id ≠ trackId && sheet.pattern id step) with
      | true =>
        rw [if_pos rfl]
        intro v a l hov
        obtain ⟨h1, h2, h3, t, ht, hpat⟩ := hN v a l hov
        refine ⟨h1, h2, h3, ?_⟩
        by_cases hta : t = trackId ∧ a = step
        · obtain ⟨ht1, ht2⟩ := hta
          have hv : v = voiceOf trackId := by
            rw [← ht1]
            exact (mem_voiceTracks_iff t v).mp ht
          obtain ⟨id0, hid0, hcond⟩ := List.any_eq_true.mp hOB
          have hid : id0 ≠ trackId ∧ sheet.pattern id0 step = true := by
            simpa using hcond
          refine ⟨id0, by rw [hv]; exact hid0, ?_⟩
          simp [ht2, hid.1, hid.2]
        · exact ⟨t, ht, by simp [hta, hpat]⟩
      | false =>
        simp only [Bool.false_eq_true, if_false]
        intro v a l hov
        have hkey : ¬(v = voiceOf trackId ∧ a = step) := by
          intro hk
          rw [deleteOverrideEntry, if_pos hk] at hov
          simp at hov
        have hov' : ov v a = some l := by
          simpa [deleteOverrideEntry, hkey] using hov
        obtain ⟨h1, h2, h3, t, ht, hpat⟩ := hN v a l hov'
        refine ⟨h1, h2, h3, t, ht, ?_⟩
        by_cases hta : t = trackId ∧ a = step
        · exfalso
          refine hkey ⟨?_, hta.2⟩
          rw [← hta.1]
          exact (mem_voiceTracks_iff t v).mp ht
        · simp [hta, hpat]
    | false =>
      cases hsame : (voiceTracks (voiceOf trackId)).any (fun id =>
          sheet.pattern id step) with
      | true =>
        rw [handleStepClick_toggleOnJoined sheet ov inputNoteLength
          trackId step hw hsame]
        intro v a l hov
        obtain ⟨h1, h2, h3, t, ht, hpat⟩ := hN v a l hov
        refine ⟨h1, h2, h3, t, ht, ?_⟩
        by_cases hta : t = trackId ∧ a = step
        · simp [hta]
        · simp [hta, hpat]
      | false =>
        rw [handleStepClick_toggleOnIsolated sheet ov inputNoteLength
          trackId step hw hsame]
        split_ifs with hg1 hg2 hg3
        · exact hN
        · exact hN
        · exact hN
        · intro v a l hov
          by_cases hkey : v = voiceOf trackId ∧ a = step
          · obtain ⟨hk1, hk2⟩ := hkey
            subst hk1
            subst hk2
            have hll : inputNoteLength = l := by
              simpa [setOverrideEntry] using hov
            subst hll
            have hspb : 0 < sheet.stepsPerBar := by
              rcases Nat.eq_zero_or_pos sheet.stepsPerBar with hz | hp
              · exfalso
                rw [hz] at hg2
                have hpos := inputNoteLength.steps_pos
                simp at hg2
                omega
              · exact hp
            have hbar : a + inputNoteLength.steps ≤
                a / sheet.stepsPerBar * sheet.stepsPerBar +
                  sheet.stepsPerBar := by omega
            refine ⟨hstep, le_trans hbar
              (barEnd_le_totalSteps sheet a hspb hstep), hbar,
              trackId, mem_voiceTracks_self trackId, by simp⟩
          · have hov' : ov v a = some l := by
              simpa [setOverrideEntry, hkey] using hov
            obtain ⟨h1, h2, h3, t, ht, hpat⟩ := hN v a l hov'
            refine ⟨h1, h2, h3, t, ht, ?_⟩
            by_cases hta : t = trackId ∧ a = step
            · simp [hta]
            · simp [hta, hpat]

/-- Witness for C4 amended: toggling a kick cell onto the empty 4/4
sheet at step 0 leaves an override map satisfying the normalization
invariant. -/
theorem override_invariant_witness :
    NormalizedInvariant
      (handleStepClick
        { bpm := 90, timeSignature := .ts4_4, stepsPerBar := 32,
          totalBars := 1, pattern := fun _ _ => false }
        (fun _ _ => none) .quarter .kick 0).1
      (handleStepClick
        { bpm := 90, timeSignature := .ts4_4, stepsPerBar := 32,
          totalBars := 1, pattern := fun _ _ => false }
        (fun _ _ => none) .quarter .kick 0).2 :=
  override_invariant_after_mutations.2
    { bpm := 90, timeSignature := .ts4_4, stepsPerBar := 32,
      totalBars := 1, pattern := fun _ _ => false }
    (fun _ _ => none) .quarter .kick 0
    (by norm_num [SavedSheet.totalSteps])
    (fun v a l hov => by simp at hov)

/-! ## C10: double toggle -/

/-- Counterexample to C10 as stated: one 4/4 bar with kick hits at
steps 0 and 1, no overrides, input note length a quarter, and no other
foot track hitting step 0. Toggling the kick cell at step 0 twice does
not restore the pattern: the toggle-off succeeds, but the re-toggle is
rejected because the quarter-length span `(0, 8)` now collides with the
kick hit at step 1, leaving the cell cleared. -/
theorem double_toggle_counterexample :
    ((handleStepClick
        (handleStepClick
          { bpm := 90, timeSignature := .ts4_4, stepsPerBar := 32,
            totalBars := 1,
            pattern := fun t s => t = .kick ∧ (s = 0 ∨ s = 1) }
          (fun _ _ => none) .quarter .kick 0).1
        (handleStepClick
          { bpm := 90, timeSignature := .ts4_4, stepsPerBar := 32,
            totalBars := 1,
            pattern := fun t s => t = .kick ∧ (s = 0 ∨ s = 1) }
          (fun _ _ => none) .quarter .kick 0).2
        .quarter .kick 0).1.pattern .kick 0 = false) ∧
      ({ bpm := 90, timeSignature := .ts4_4, stepsPerBar := 32,
          totalBars := 1,
          pattern := fun t s => t = .kick ∧ (s = 0 ∨ s = 1) } :
        SavedSheet).pattern .kick 0 = true ∧
      (∀ t ∈ voiceTracks (voiceOf .kick), t ≠ .kick →
        ({ bpm := 90, timeSignature := .ts4_4, stepsPerBar := 32,
            totalBars := 1,
            pattern := fun t s => t = .kick ∧ (s = 0 ∨ s = 1) } :
          SavedSheet).pattern t 0 = false) := by
  decide

/-- C10 amended: for every sheet state satisfying the anchoring
invariant, at a step where no track of the toggled track's voice has a
hit (in particular the toggled cell is inactive), toggling the grid
cell and toggling it again returns both the pattern and the
duration-override map to exactly their original values, whether the
first toggle is accepted or rejected. (Starting from an active cell
this fails: the re-toggle can be rejected or can store the current
input length instead of the previous override, see the
counterexample.) -/
theorem double_toggle_identity (sheet : SavedSheet)
    (ov : NoteLengthOverrides) (inputNoteLength : NoteLengthSteps)
    (trackId : DrumTrackId) (step : Nat)
    (hvoice : ∀ t ∈ voiceTracks (voiceOf trackId),
      sheet.pattern t step = false)
    (hAnchor : AnchoredInvariant sheet ov) :
    (∀ t s,
      (handleStepClick
          (handleStepClick sheet ov inputNoteLength trackId step).1
          (handleStepClick sheet ov inputNoteLength trackId step).2
          inputNoteLength trackId step).1.pattern t s =
        sheet.pattern t s) ∧
    (∀ v s,
      (handleStepClick
          (handleStepClick sheet ov inputNoteLength trackId step).1
          (handleStepClick sheet ov inputNoteLength trackId step).2
          inputNoteLength trackId step).2 v s = ov v s) := by
  have hw : sheet.pattern trackId step = false :=
    hvoice trackId (mem_voiceTracks_self trackId)
  have hisoB : ((voiceTracks (voiceOf trackId)).any fun id =>
      sheet.pattern id step) = false := by
    rw [List.any_eq_false]
    intro t ht
    simp [hvoice t ht]
  have hOvNone : ov (voiceOf trackId) step = none := by
    cases hov : ov (voiceOf trackId) step with
    | none => rfl
    | some l =>
      obtain ⟨t, ht, hpat⟩ := hAnchor _ _ _ hov
      exact absurd hpat (by simp [hvoice t ht])
  rw [handleStepClick_toggleOnIsolated sheet ov inputNoteLength trackId
    step hw hisoB]
  split_ifs with hg1 hg2 hg3
  · dsimp only
    rw [handleStepClick_toggleOnIsolated sheet ov inputNoteLength trackId
      step hw hisoB, if_pos hg1]
    exact ⟨fun t s => rfl, fun v s => rfl⟩
  · dsimp only
    rw [handleStepClick_toggleOnIsolated sheet ov inputNoteLength trackId
      step hw hisoB, if_neg hg1, if_pos hg2]
    exact ⟨fun t s => rfl, fun v s => rfl⟩
  · dsimp only
    rw [handleStepClick_toggleOnIsolated sheet ov inputNoteLength trackId
      step hw hisoB, if_neg hg1, if_neg hg2, if_pos hg3]
    exact ⟨fun t s => rfl, fun v s => rfl⟩
  · dsimp only
    have hw2 : ({ sheet with pattern := fun t s =>
        if t = trackId ∧ s = step then true else sheet.pattern t s } :
          SavedSheet).pattern trackId step = true := by simp
    rw [handleStepClick_toggleOff _ _ inputNoteLength trackId step hw2]
    have hany : ((voiceTracks (voiceOf trackId)).any fun id =>
        id ≠ trackId && ({ sheet with pattern := fun t s =>
          if t = trackId ∧ s = step then true else sheet.pattern t s } :
            SavedSheet).pattern id step) = false := by
      rw [List.any_eq_false]
      intro t ht
      by_cases htid : t = trackId
      · simp [htid]
      · simp [htid, hvoice t ht]
    rw [hany]
    simp only [Bool.false_eq_true, if_false]
    constructor
    · intro t s
      by_cases hts : t = trackId ∧ s = step
      · obtain ⟨h1, h2⟩ := hts
        subst h1
        subst h2
        simp [hw]
      · simp [hts]
    · intro v s
      by_cases hvs : v = voiceOf trackId ∧ s = step
      · obtain ⟨h1, h2⟩ := hvs
        subst h1
        subst h2
        simp [deleteOverrideEntry, hOvNone]
      · simp [deleteOverrideEntry, setOverrideEntry, hvs]

/-- Witness for C10 amended: one 4/4 bar with a snare hit at step 4 —
double-toggling the kick cell at step 0 (inactive, no other foot hit)
restores the initial state; here instantiated at the kick cell itself
and at the foot override entry at step 0. -/
theorem double_toggle_identity_witness :
    (handleStepClick
        (handleStepClick
          { bpm := 90, timeSignature := .ts4_4, stepsPerBar := 32,
            totalBars := 1, pattern := fun t s => t = .snare ∧ s = 4 }
          (fun _ _ => none) .quarter .kick 0).1
        (handleStepClick
          { bpm := 90, timeSignature := .ts4_4, stepsPerBar := 32,
            totalBars := 1, pattern := fun t s => t = .snare ∧ s = 4 }
          (fun _ _ => none) .quarter .kick 0).2
        .quarter .kick 0).1.pattern .kick 0 =
      ({ bpm := 90, timeSignature := .ts4_4, stepsPerBar := 32,
          totalBars := 1, pattern := fun t s => t = .snare ∧ s = 4 } :
        SavedSheet).pattern .kick 0 :=
  (double_toggle_identity
    { bpm := 90, timeSignature := .ts4_4, stepsPerBar := 32,
      totalBars := 1, pattern := fun t s => t = .snare ∧ s = 4 }
    (fun _ _ => none) .quarter .kick 0 (by decide)
    (fun v a l hov => by simp at hov)).1 .kick 0

/-! ## Rest-decomposer walk lemmas -/

theorem emitTickableAt_len_pos (sheet : SavedSheet)
    (trackIds : List DrumTrackId) (barStartStep : Nat)
    (voicePart : VoicePart) (ov : NoteLengthOverrides)
    (merged : Nat → Bool) (offset : Nat) :
    1 ≤ (emitTickableAt sheet trackIds barStartStep voicePart ov merged
      offset).len := by
  simp only [emitTickableAt]
  split_ifs <;>
    simp [Tickable.len, NoteLengthSteps.steps_pos]

theorem emitTickableAt_len_le (sheet : SavedSheet)
    (trackIds : List DrumTrackId) (barStartStep : Nat)
    (voicePart : VoicePart) (ov : NoteLengthOverrides)
    (merged : Nat → Bool) (offset : Nat)
    (hoff : offset < sheet.stepsPerBar) :
    offset + (emitTickableAt sheet trackIds barStartStep voicePart ov
      merged offset).len ≤ sheet.stepsPerBar := by
  have hclamp : ∀ requested : NoteLengthSteps,
      (clampNoteLengthToBar (barStartStep + offset)
        (barStartStep + sheet.stepsPerBar) requested).steps ≤
        sheet.stepsPerBar - offset := by
    intro requested
    have := clampNoteLengthToBar_le (barStartStep + offset)
      (barStartStep + sheet.stepsPerBar) requested (by omega)
    omega
  simp only [emitTickableAt]
  split_ifs with h1 h2 h3 h4 h5 h6 <;>
    simp only [Tickable.len] <;>
    first
      | omega
      | (simp only [Bool.and_eq_true, decide_eq_true_eq] at *; omega)
      | (have h9 := hclamp (resolveLengthForStep sheet trackIds voicePart
          (barStartStep + offset) (barStartStep + sheet.stepsPerBar)
          ((ov voicePart (barStartStep + offset)).getD
            (inferAutoLength sheet trackIds voicePart
              (barStartStep + offset)
              (barStartStep + sheet.stepsPerBar) ov)) ov); omega)

theorem buildVoiceTickablesFrom_start_le (sheet : SavedSheet)
    (trackIds : List DrumTrackId) (barStartStep : Nat)
    (voicePart : VoicePart) (ov : NoteLengthOverrides)
    (merged : Nat → Bool) :
    ∀ (fuel offset : Nat),
      ∀ e ∈ buildVoiceTickablesFrom sheet trackIds barStartStep voicePart
        ov merged fuel offset, offset ≤ e.1 ∧ e.1 < sheet.stepsPerBar := by
  intro fuel
  induction fuel with
  | zero => intro offset e he; simp [buildVoiceTickablesFrom] at he
  | succ fuel ih =>
    intro offset e he
    simp only [buildVoiceTickablesFrom] at he
    split_ifs at he with hoff
    · rcases List.mem_cons.mp he with h | h
      · subst h
        exact ⟨le_refl _, hoff⟩
      · have := ih _ e h
        have hpos := emitTickableAt_len_pos sheet trackIds barStartStep
          voicePart ov merged offset
        omega
    · simp at he

theorem buildVoiceTickablesFrom_sum (sheet : SavedSheet)
    (trackIds : List DrumTrackId) (barStartStep : Nat)
    (voicePart : VoicePart) (ov : NoteLengthOverrides)
    (merged : Nat → Bool) :
    ∀ (fuel offset : Nat), sheet.stepsPerBar ≤ offset + fuel →
      offset ≤ sheet.stepsPerBar →
      ((buildVoiceTickablesFrom sheet trackIds barStartStep voicePart ov
        merged fuel offset).map fun e => e.2.len).sum =
        sheet.stepsPerBar - offset := by
  intro fuel
  induction fuel with
  | zero =>
    intro offset h1 h2
    simp [buildVoiceTickablesFrom]
    omega
  | succ fuel ih =>
    intro offset h1 h2
    simp only [buildVoiceTickablesFrom]
    split_ifs with hoff
    · have hpos := emitTickableAt_len_pos sheet trackIds barStartStep
        voicePart ov merged offset
      have hle := emitTickableAt_len_le sheet trackIds barStartStep
        voicePart ov merged offset hoff
      rw [List.map_cons, List.sum_cons,
        ih (offset + (emitTickableAt sheet trackIds barStartStep voicePart
          ov merged offset).len) (by omega) (by omega)]
      dsimp only
      omega
    · simp
      omega

theorem buildVoiceTickablesFrom_coverage (sheet : SavedSheet)
    (trackIds : List DrumTrackId) (barStartStep : Nat)
    (voicePart : VoicePart) (ov : NoteLengthOverrides)
    (merged : Nat → Bool) :
    ∀ (fuel offset s : Nat), sheet.stepsPerBar ≤ offset + fuel →
      offset ≤ s → s < sheet.stepsPerBar →
      ((buildVoiceTickablesFrom sheet trackIds barStartStep voicePart ov
        merged fuel offset).countP fun e =>
          decide (e.1 ≤ s) && decide (s < e.1 + e.2.len)) = 1 := by
  intro fuel
  induction fuel with
  | zero =>
    intro offset s h1 h2 h3
    omega
  | succ fuel ih =>
    intro offset s h1 h2 h3
    have hoff : offset < sheet.stepsPerBar := by omega
    have hpos := emitTickableAt_len_pos sheet trackIds barStartStep
      voicePart ov merged offset
    simp only [buildVoiceTickablesFrom, if_pos hoff]
    rw [List.countP_cons]
    dsimp only
    by_cases hs : s < offset +
        (emitTickableAt sheet trackIds barStartStep voicePart ov merged
          offset).len
    · have hhead : (decide (offset ≤ s) &&
          decide (s < offset + (emitTickableAt sheet trackIds barStartStep
            voicePart ov merged offset).len)) = true := by
        simp [h2, hs]
      have htail : ((buildVoiceTickablesFrom sheet trackIds barStartStep
          voicePart ov merged fuel (offset + (emitTickableAt sheet trackIds
            barStartStep voicePart ov merged offset).len)).countP fun e =>
          decide (e.1 ≤ s) && decide (s < e.1 + e.2.len)) = 0 := by
        rw [List.countP_eq_zero]
        intro e he
        have hb := buildVoiceTickablesFrom_start_le sheet trackIds
          barStartStep voicePart ov merged fuel _ e he
        simp only [Bool.and_eq_true, decide_eq_true_eq, not_and]
        omega
      rw [htail, hhead]
      norm_num
    · have hhead : (decide (offset ≤ s) &&
          decide (s < offset + (emitTickableAt sheet trackIds barStartStep
            voicePart ov merged offset).len)) = false := by
        have hb : decide (s < offset + (emitTickableAt sheet trackIds
            barStartStep voicePart ov merged offset).len) = false :=
          decide_eq_false_iff_not.mpr hs
        simp [hb]
      rw [hhead, ih _ s (by omega) (by omega) h3]
      norm_num

theorem hit_implies_anyEvent (sheet : SavedSheet)
    (ov : NoteLengthOverrides) (v : VoicePart) (t : DrumTrackId)
    (ht : t ∈ voiceTracks v) (u : Nat)
    (hpat : sheet.pattern t u = true) :
    hasAnyEventAtStep sheet u ov = true := by
  unfold hasAnyEventAtStep
  cases v with
  | hand =>
    have hev : hasVoiceEventAtStep sheet HAND_TRACKS .hand u ov none =
        true := by
      rw [hasVoiceEventAtStep_eq_base, hasVoiceBaseEventAtStep_iff]
      exact Or.inl ⟨t, ht, hpat⟩
    simp [hev]
  | foot =>
    have hev : hasVoiceEventAtStep sheet FOOT_TRACKS .foot u ov none =
        true := by
      rw [hasVoiceEventAtStep_eq_base, hasVoiceBaseEventAtStep_iff]
      exact Or.inl ⟨t, ht, hpat⟩
    simp [hev]

theorem anyEvent_in_range (sheet : SavedSheet) (ov : NoteLengthOverrides)
    (fromStep toStep u : Nat) (h1 : fromStep ≤ u) (h2 : u ≤ toStep)
    (h : hasAnyEventAtStep sheet u ov = true) :
    hasAnyTrackHitInRange sheet fromStep toStep ov = true := by
  unfold hasAnyTrackHitInRange
  rw [List.any_eq_true]
  refine ⟨u - fromStep, List.mem_range.mpr (by omega), ?_⟩
  rwa [show fromStep + (u - fromStep) = u by omega]

/-- Skip safety for the walk: whatever tickable is emitted at `offset`,
its length never jumps past a step at which the current voice's hit
starts — rests are blocked by any event in their range, a covered step
emits a length-1 spacer, a default note has length 1, and an
override-length note stays inside its override span, which by the span
invariant contains no same-voice hit start. -/
theorem emitTickableAt_skip_safe (sheet : SavedSheet)
    (voicePart : VoicePart) (ov : NoteLengthOverrides)
    (merged : Nat → Bool) (barStartStep offset s : Nat)
    (hInv : SpanInvariant sheet voicePart ov) (hs1 : offset < s)
    (hhit : ∃ t ∈ voiceTracks voicePart,
      sheet.pattern t (barStartStep + s) = true) :
    offset + (emitTickableAt sheet (voiceTracks voicePart) barStartStep
      voicePart ov merged offset).len ≤ s := by
  obtain ⟨t0, ht0, hp0⟩ := hhit
  have hev : hasAnyEventAtStep sheet (barStartStep + s) ov = true :=
    hit_implies_anyEvent sheet ov voicePart t0 ht0 _ hp0
  have hrest : ∀ L : Nat, hasAnyTrackHitInRange sheet
      (barStartStep + offset) (barStartStep + offset + L - 1) ov =
        false → 1 ≤ L → offset + L ≤ s := by
    intro L hR hL
    by_contra hcon
    push_neg at hcon
    have := anyEvent_in_range sheet ov (barStartStep + offset)
      (barStartStep + offset + L - 1) (barStartStep + s) (by omega)
      (by omega) hev
    rw [hR] at this
    exact absurd this (by simp)
  have hnote : offset +
      (clampNoteLengthToBar (barStartStep + offset)
        (barStartStep + sheet.stepsPerBar)
        (resolveLengthForStep sheet (voiceTracks voicePart) voicePart
          (barStartStep + offset) (barStartStep + sheet.stepsPerBar)
          ((ov voicePart (barStartStep + offset)).getD
            (inferAutoLength sheet (voiceTracks voicePart) voicePart
              (barStartStep + offset) (barStartStep + sheet.stepsPerBar)
              ov)) ov)).steps ≤ s := by
    rcases hov : ov voicePart (barStartStep + offset) with _ | L0
    · simp only [Option.getD_none, inferAutoLength, resolveLengthForStep,
        clampNoteLengthToBar_thirtySecond, NoteLengthSteps.steps]
      omega
    · simp only [Option.getD_some, resolveLengthForStep]
      have hle := clampNoteLengthToBar_le_requested
        (barStartStep + offset) (barStartStep + sheet.stepsPerBar) L0
      by_contra hcon
      push_neg at hcon
      have hfalse := hInv (barStartStep + offset) L0 hov (barStartStep + s)
        (by omega) (by omega) t0 ht0
      rw [hp0] at hfalse
      exact absurd hfalse (by simp)
  simp only [emitTickableAt]
  split_ifs with h1 h2 h3 h4 h5 h6 <;> simp only [Tickable.len]
  · omega
  · simp only [Bool.and_eq_true, decide_eq_true_eq, Bool.not_eq_true']
      at h3
    exact hrest 8 h3.2 (by omega)
  · simp only [Bool.and_eq_true, decide_eq_true_eq, Bool.not_eq_true']
      at h4
    exact hrest 4 h4.2 (by omega)
  · simp only [Bool.and_eq_true, decide_eq_true_eq, Bool.not_eq_true']
      at h5
    exact hrest 2 h5.2 (by omega)
  · omega
  · exact hnote
  · exact hnote
  · exact hnote

/-- At a step where the voice has a hit, the emitted tickable is a note
— except for the foot voice at a merged step, where it is a spacer. -/
theorem emitTickableAt_at_hit (sheet : SavedSheet) (voicePart : VoicePart)
    (ov : NoteLengthOverrides) (merged : Nat → Bool)
    (barStartStep offset : Nat)
    (hne : ((voiceTracks voicePart).filter fun t =>
      sheet.pattern t (barStartStep + offset)).isEmpty = false) :
    ((¬(voicePart = .foot ∧ merged (barStartStep + offset) = true)) →
      (emitTickableAt sheet (voiceTracks voicePart) barStartStep voicePart
        ov merged offset).isNote = true) ∧
    ((voicePart = .foot ∧ merged (barStartStep + offset) = true) →
      (emitTickableAt sheet (voiceTracks voicePart) barStartStep voicePart
        ov merged offset).isSpacer = true) := by
  simp only [emitTickableAt, hne, Bool.false_eq_true, if_false]
  constructor
  · intro hnm
    have hcond : (decide (voicePart = VoicePart.foot) &&
        merged (barStartStep + offset)) = false := by
      by_cases hv : voicePart = VoicePart.foot
      · cases hmg : merged (barStartStep + offset)
        · simp [hmg]
        · exact absurd ⟨hv, hmg⟩ hnm
      · simp [hv]
    rw [hcond]
    simp only [Bool.false_eq_true, if_false]
    rfl
  · rintro ⟨hv, hmg⟩
    subst hv
    simp [hmg, Tickable.isSpacer]

/-- Hit starts of the walked voice each produce exactly one token at
their step: a note token, or, for the foot voice at a merged step, a
spacer token. -/
theorem buildVoiceTickablesFrom_hit_tokens (sheet : SavedSheet)
    (voicePart : VoicePart) (ov : NoteLengthOverrides)
    (barStartStep : Nat) (merged : Nat → Bool)
    (hInv : SpanInvariant sheet voicePart ov) :
    ∀ (fuel offset s : Nat), sheet.stepsPerBar ≤ offset + fuel →
      offset ≤ s → s < sheet.stepsPerBar →
      (∃ t ∈ voiceTracks voicePart,
        sheet.pattern t (barStartStep + s) = true) →
      ((¬(voicePart = .foot ∧ merged (barStartStep + s) = true)) →
        ((buildVoiceTickablesFrom sheet (voiceTracks voicePart)
          barStartStep voicePart ov merged fuel offset).countP fun e =>
            decide (e.1 = s) && e.2.isNote) = 1) ∧
      ((voicePart = .foot ∧ merged (barStartStep + s) = true) →
        ((buildVoiceTickablesFrom sheet (voiceTracks voicePart)
          barStartStep voicePart ov merged fuel offset).countP fun e =>
            decide (e.1 = s) && e.2.isSpacer) = 1 ∧
        ((buildVoiceTickablesFrom sheet (voiceTracks voicePart)
          barStartStep voicePart ov merged fuel offset).countP fun e =>
            decide (e.1 = s) && e.2.isNote) = 0) := by
  intro fuel
  induction fuel with
  | zero =>
    intro offset s h1 h2 h3 hhit
    exact absurd h3 (by omega)
  | succ fuel ih =>
    intro offset s h1 h2 h3 hhit
    have hoff : offset < sheet.stepsPerBar := by omega
    have hpos := emitTickableAt_len_pos sheet (voiceTracks voicePart)
      barStartStep voicePart ov merged offset
    simp only [buildVoiceTickablesFrom, if_pos hoff]
    by_cases hEq : offset = s
    · subst hEq
      have htail0 : ∀ p : Tickable → Bool,
          ((buildVoiceTickablesFrom sheet (voiceTracks voicePart)
            barStartStep voicePart ov merged fuel
            (offset + (emitTickableAt sheet (voiceTracks voicePart)
              barStartStep voicePart ov merged offset).len)).countP
            fun e => decide (e.1 = offset) && p e.2) = 0 := by
        intro p
        rw [List.countP_eq_zero]
        intro e he
        have hb := buildVoiceTickablesFrom_start_le sheet
          (voiceTracks voicePart) barStartStep voicePart ov merged fuel _
          e he
        intro hcontra
        simp only [Bool.and_eq_true, decide_eq_true_eq] at hcontra
        omega
      have hne : ((voiceTracks voicePart).filter fun t =>
          sheet.pattern t (barStartStep + offset)).isEmpty = false := by
        obtain ⟨t0, ht0, hp0⟩ := hhit
        have hmem : t0 ∈ (voiceTracks voicePart).filter fun t =>
            sheet.pattern t (barStartStep + offset) :=
          List.mem_filter.mpr ⟨ht0, hp0⟩
        cases hx : ((voiceTracks voicePart).filter fun t =>
            sheet.pattern t (barStartStep + offset)).isEmpty
        · rfl
        · rw [List.isEmpty_eq_true] at hx
          rw [hx] at hmem
          simp at hmem
      obtain ⟨hnoteCase, hspacerCase⟩ := emitTickableAt_at_hit sheet
        voicePart ov merged barStartStep offset hne
      constructor
      · intro hnm
        rw [List.countP_cons]
        dsimp only
        rw [htail0 Tickable.isNote]
        have hh : (decide (offset = offset) &&
            (emitTickableAt sheet (voiceTracks voicePart) barStartStep
              voicePart ov merged offset).isNote) = true := by
          simp [hnoteCase hnm]
        rw [hh]
        norm_num
      · intro hm
        have hsp := hspacerCase hm
        have hnn : (emitTickableAt sheet (voiceTracks voicePart)
            barStartStep voicePart ov merged offset).isNote = false := by
          cases hE2 : emitTickableAt sheet (voiceTracks voicePart)
              barStartStep voicePart ov merged offset <;>
            simp_all [Tickable.isSpacer, Tickable.isNote]
        constructor
        · rw [List.countP_cons]
          dsimp only
          rw [htail0 Tickable.isSpacer]
          have hh : (decide (offset = offset) &&
              (emitTickableAt sheet (voiceTracks voicePart) barStartStep
                voicePart ov merged offset).isSpacer) = true := by
            simp [hsp]
          rw [hh]
          norm_num
        · rw [List.countP_cons]
          dsimp only
          rw [htail0 Tickable.isNote]
          have hh : (decide (offset = offset) &&
              (emitTickableAt sheet (voiceTracks voicePart) barStartStep
                voicePart ov merged offset).isNote) = false := by
            simp [hnn]
          rw [hh]
          norm_num
    · have hlt : offset < s := by omega
      have hskip := emitTickableAt_skip_safe sheet voicePart ov merged
        barStartStep offset s hInv hlt hhit
      obtain ⟨ih1, ih2⟩ := ih (offset + (emitTickableAt sheet
        (voiceTracks voicePart) barStartStep voicePart ov merged
          offset).len) s (by omega) (by omega) h3 hhit
      have hh : ∀ p : Tickable → Bool, (decide (offset = s) &&
          p (emitTickableAt sheet (voiceTracks voicePart) barStartStep
            voicePart ov merged offset)) = false := by
        intro p
        have : decide (offset = s) = false :=
          decide_eq_false_iff_not.mpr hEq
        simp [this]
      constructor
      · intro hnm
        rw [List.countP_cons]
        dsimp only
        rw [ih1 hnm, hh Tickable.isNote]
        norm_num
      · intro hm
        obtain ⟨ihsp, ihnn⟩ := ih2 hm
        constructor
        · rw [List.countP_cons]
          dsimp only
          rw [ihsp, hh Tickable.isSpacer]
          norm_num
        · rw [List.countP_cons]
          dsimp only
          rw [ihnn, hh Tickable.isNote]
          norm_num

/-! ## C5: the greedy rest rule -/

theorem hasAnyTrackHitInRange_self (sheet : SavedSheet) (s : Nat)
    (ov : NoteLengthOverrides) :
    hasAnyTrackHitInRange sheet s (s + 1 - 1) ov =
      hasAnyEventAtStep sheet s ov := by
  have h : s + 1 - 1 + 1 - s = 1 := by omega
  simp [hasAnyTrackHitInRange, h, List.range_succ]

/-- Counterexample to C5 as stated: one 4/4 bar with only a kick hit at
step 0 and no overrides. In the foot-voice walk, step 1 is uncovered
(the kick note has default length 1) and carries no hit of either
voice, and the largest rest length with no hit-start in its range —
the claim's rule, `claimRestLength` — is a full quarter (8 steps,
`[1, 9)` contains no hit). The code instead emits a 32nd rest of
length 1, because rests of length 8, 4, 2 additionally require the
bar offset to be a multiple of the rest length. -/
theorem rest_rule_counterexample :
    ((buildVoiceTickables
        { bpm := 90, timeSignature := .ts4_4, stepsPerBar := 32,
          totalBars := 1, pattern := fun t s => t = .kick ∧ s = 0 }
        FOOT_TRACKS 0 .foot (fun _ _ => none)
        (buildMergedFootStartSteps
          { bpm := 90, timeSignature := .ts4_4, stepsPerBar := 32,
            totalBars := 1, pattern := fun t s => t = .kick ∧ s = 0 }
          0 (fun _ _ => none))).getD 1 (0, .rest 0)) =
      (1, Tickable.rest 1) ∧
    claimRestLength
      { bpm := 90, timeSignature := .ts4_4, stepsPerBar := 32,
        totalBars := 1, pattern := fun t s => t = .kick ∧ s = 0 }
      0 1 = 8 ∧
    (FOOT_TRACKS.filter fun t =>
      ({ bpm := 90, timeSignature := .ts4_4, stepsPerBar := 32,
          totalBars := 1, pattern := fun t s => t = .kick ∧ s = 0 } :
        SavedSheet).pattern t 1).isEmpty = true ∧
    hasAnyEventAtStep
      { bpm := 90, timeSignature := .ts4_4, stepsPerBar := 32,
        totalBars := 1, pattern := fun t s => t = .kick ∧ s = 0 }
      1 (fun _ _ => none) = false := by
  refine ⟨?_, by decide, by decide, by decide⟩
  decide

/-- C5 amended: in the rest decomposer, at every uncovered step where
no hit of the current voice starts and no event of either voice
occupies the step, rest lengths are attempted in the order quarter(8),
eighth(4), sixteenth(2), thirty-second(1), and the accepted rest is the
largest length `L` such that the bar offset is a multiple of `L`, the
rest fits before the bar end, and `[step, step+L)` contains no event —
a hit of either voice, or coverage by an anchored same-voice override
span — across all tracks of both voices; the rest token is emitted and
the walk advances by `L`. -/
theorem rest_greedy_rule (sheet : SavedSheet) (ov : NoteLengthOverrides)
    (trackIds : List DrumTrackId) (voicePart : VoicePart)
    (merged : Nat → Bool) (barStartStep offset fuel : Nat)
    (hoff : offset < sheet.stepsPerBar)
    (hempty : ((trackIds.filter fun t =>
      sheet.pattern t (barStartStep + offset)).isEmpty) = true)
    (hnoev : hasAnyEventAtStep sheet (barStartStep + offset) ov = false) :
    ∃ L,
      emitTickableAt sheet trackIds barStartStep voicePart ov merged
          offset = .rest L ∧
      buildVoiceTickablesFrom sheet trackIds barStartStep voicePart ov
          merged (fuel + 1) offset =
        (offset, Tickable.rest L) ::
          buildVoiceTickablesFrom sheet trackIds barStartStep voicePart ov
            merged fuel (offset + L) ∧
      L ∈ [8, 4, 2, 1] ∧ offset % L = 0 ∧
      offset + L ≤ sheet.stepsPerBar ∧
      hasAnyTrackHitInRange sheet (barStartStep + offset)
        (barStartStep + offset + L - 1) ov = false ∧
      (∀ L' ∈ [8, 4, 2, 1], offset % L' = 0 →
        offset + L' ≤ sheet.stepsPerBar →
        hasAnyTrackHitInRange sheet (barStartStep + offset)
          (barStartStep + offset + L' - 1) ov = false →
        L' ≤ L) := by
  have hwalk : ∀ L, emitTickableAt sheet trackIds barStartStep voicePart
      ov merged offset = .rest L →
      buildVoiceTickablesFrom sheet trackIds barStartStep voicePart ov
          merged (fuel + 1) offset =
        (offset, Tickable.rest L) ::
          buildVoiceTickablesFrom sheet trackIds barStartStep voicePart ov
            merged fuel (offset + L) := by
    intro L hL
    simp only [buildVoiceTickablesFrom, if_pos hoff, hL, Tickable.len]
  have h1ok : hasAnyTrackHitInRange sheet (barStartStep + offset)
      (barStartStep + offset + 1 - 1) ov = false := by
    rw [hasAnyTrackHitInRange_self]
    exact hnoev
  have hemit0 : emitTickableAt sheet trackIds barStartStep voicePart ov
      merged offset =
      (if decide (offset % 8 = 0) &&
          decide (barStartStep + offset + 8 - 1 <
            barStartStep + sheet.stepsPerBar) &&
          !hasAnyTrackHitInRange sheet (barStartStep + offset)
            (barStartStep + offset + 8 - 1) ov then Tickable.rest 8
      else if decide (offset % 4 = 0) &&
          decide (offset + 4 - 1 < sheet.stepsPerBar) &&
          !hasAnyTrackHitInRange sheet (barStartStep + offset)
            (barStartStep + offset + 4 - 1) ov then Tickable.rest 4
      else if decide (offset % 2 = 0) &&
          decide (offset + 2 - 1 < sheet.stepsPerBar) &&
          !hasAnyTrackHitInRange sheet (barStartStep + offset)
            (barStartStep + offset + 2 - 1) ov then Tickable.rest 2
      else Tickable.rest 1) := by
    simp only [emitTickableAt, hempty, hnoev, eq_self_iff_true, if_true,
      Bool.false_eq_true, if_false]
  rw [hemit0]
  split_ifs with h8 h4 h2
  · have hemit : emitTickableAt sheet trackIds barStartStep voicePart ov
        merged offset = Tickable.rest 8 := by
      rw [hemit0, if_pos h8]
    simp only [Bool.and_eq_true, decide_eq_true_eq, Bool.not_eq_true']
      at h8
    refine ⟨8, rfl, hwalk 8 hemit, by norm_num, h8.1.1, by omega, h8.2,
      ?_⟩
    intro L' hL' _ _ _
    simp only [List.mem_cons, List.not_mem_nil, or_false] at hL'
    omega
  · have hemit : emitTickableAt sheet trackIds barStartStep voicePart ov
        merged offset = Tickable.rest 4 := by
      rw [hemit0, if_neg h8, if_pos h4]
    simp only [Bool.and_eq_true, decide_eq_true_eq, Bool.not_eq_true',
      not_and_or, not_lt, Bool.not_eq_false] at h8 h4
    refine ⟨4, rfl, hwalk 4 hemit, by norm_num, h4.1.1, by omega, h4.2,
      ?_⟩
    intro L' hL' hm hb hr
    simp only [List.mem_cons, List.not_mem_nil, or_false] at hL'
    rcases hL' with h | h | h | h
    · subst h
      rcases h8 with (h8 | h8) | h8
      · exact absurd hm h8
      · omega
      · rw [h8] at hr
        exact absurd hr (by simp)
    all_goals omega
  · have hemit : emitTickableAt sheet trackIds barStartStep voicePart ov
        merged offset = Tickable.rest 2 := by
      rw [hemit0, if_neg h8, if_neg h4, if_pos h2]
    simp only [Bool.and_eq_true, decide_eq_true_eq, Bool.not_eq_true',
      not_and_or, not_lt, Bool.not_eq_false] at h8 h4 h2
    refine ⟨2, rfl, hwalk 2 hemit, by norm_num, h2.1.1, by omega, h2.2,
      ?_⟩
    intro L' hL' hm hb hr
    simp only [List.mem_cons, List.not_mem_nil, or_false] at hL'
    rcases hL' with h | h | h | h
    · subst h
      rcases h8 with (h8 | h8) | h8
      · exact absurd hm h8
      · omega
      · rw [h8] at hr
        exact absurd hr (by simp)
    · subst h
      rcases h4 with (h4 | h4) | h4
      · exact absurd hm h4
      · omega
      · rw [h4] at hr
        exact absurd hr (by simp)
    all_goals omega
  · have hemit : emitTickableAt sheet trackIds barStartStep voicePart ov
        merged offset = Tickable.rest 1 := by
      rw [hemit0, if_neg h8, if_neg h4, if_neg h2]
    simp only [Bool.and_eq_true, decide_eq_true_eq, Bool.not_eq_true',
      not_and_or, not_lt, Bool.not_eq_false] at h8 h4 h2
    refine ⟨1, rfl, hwalk 1 hemit, by norm_num, by omega, by omega, h1ok,
      ?_⟩
    intro L' hL' hm hb hr
    simp only [List.mem_cons, List.not_mem_nil, or_false] at hL'
    rcases hL' with h | h | h | h
    · subst h
      rcases h8 with (h8 | h8) | h8
      · exact absurd hm h8
      · omega
      · rw [h8] at hr
        exact absurd hr (by simp)
    · subst h
      rcases h4 with (h4 | h4) | h4
      · exact absurd hm h4
      · omega
      · rw [h4] at hr
        exact absurd hr (by simp)
    · subst h
      rcases h2 with (h2 | h2) | h2
      · exact absurd hm h2
      · omega
      · rw [h2] at hr
        exact absurd hr (by simp)
    · omega

/-- Witness for C5 amended: the kick-at-0 sheet, foot voice, offset 8
(start of the second beat, uncovered and silent): the accepted rest
exists and satisfies the greedy characterization. -/
theorem rest_greedy_rule_witness :
    ∃ L,
      emitTickableAt
          { bpm := 90, timeSignature := .ts4_4, stepsPerBar := 32,
            totalBars := 1, pattern := fun t s => t = .kick ∧ s = 0 }
          FOOT_TRACKS 0 .foot (fun _ _ => none) (fun _ => false) 8 =
        .rest L ∧
      buildVoiceTickablesFrom
          { bpm := 90, timeSignature := .ts4_4, stepsPerBar := 32,
            totalBars := 1, pattern := fun t s => t = .kick ∧ s = 0 }
          FOOT_TRACKS 0 .foot (fun _ _ => none) (fun _ => false) 1 8 =
        (8, Tickable.rest L) ::
          buildVoiceTickablesFrom
            { bpm := 90, timeSignature := .ts4_4, stepsPerBar := 32,
              totalBars := 1, pattern := fun t s => t = .kick ∧ s = 0 }
            FOOT_TRACKS 0 .foot (fun _ _ => none) (fun _ => false) 0
            (8 + L) ∧
      L ∈ [8, 4, 2, 1] ∧ 8 % L = 0 ∧ 8 + L ≤ 32 ∧
      hasAnyTrackHitInRange
        { bpm := 90, timeSignature := .ts4_4, stepsPerBar := 32,
          totalBars := 1, pattern := fun t s => t = .kick ∧ s = 0 }
        (0 + 8) (0 + 8 + L - 1) (fun _ _ => none) = false ∧
      (∀ L' ∈ [8, 4, 2, 1], 8 % L' = 0 → 8 + L' ≤ 32 →
        hasAnyTrackHitInRange
          { bpm := 90, timeSignature := .ts4_4, stepsPerBar := 32,
            totalBars := 1, pattern := fun t s => t = .kick ∧ s = 0 }
          (0 + 8) (0 + 8 + L' - 1) (fun _ _ => none) = false →
        L' ≤ L) :=
  rest_greedy_rule
    { bpm := 90, timeSignature := .ts4_4, stepsPerBar := 32,
      totalBars := 1, pattern := fun t s => t = .kick ∧ s = 0 }
    (fun _ _ => none) FOOT_TRACKS .foot (fun _ => false) 0 8 0
    (by norm_num) (by decide) (by decide)

/-! ## C1: the rest decomposition of a bar -/

/-- Counterexample to C1 as stated: one 4/4 bar with a kick and a snare
hit at step 0 and no overrides. Both voices start a note of equal
resolved length at step 0, so step 0 is a merged foot start; the
foot-voice decomposition then emits a spacer for the kick hit (the hit
is absorbed into the hand voice's note token), so the foot voice's bar
contains no note token at all even though a foot hit starts at step
0. -/
theorem rest_decomposition_counterexample :
    ((buildVoiceTickables
        { bpm := 90, timeSignature := .ts4_4, stepsPerBar := 32,
          totalBars := 1,
          pattern := fun t s => (t = .kick ∨ t = .snare) ∧ s = 0 }
        (voiceTracks .foot) 0 .foot (fun _ _ => none)
        (buildMergedFootStartSteps
          { bpm := 90, timeSignature := .ts4_4, stepsPerBar := 32,
            totalBars := 1,
            pattern := fun t s => (t = .kick ∨ t = .snare) ∧ s = 0 }
          0 (fun _ _ => none))).countP fun e => e.2.isNote) = 0 ∧
    ((voiceTracks .foot).any fun t =>
      ({ bpm := 90, timeSignature := .ts4_4, stepsPerBar := 32,
          totalBars := 1,
          pattern := fun t s => (t = .kick ∨ t = .snare) ∧ s = 0 } :
        SavedSheet).pattern t 0) = true := by
  exact ⟨by decide, by decide⟩

/-- C1 amended: for every sheet, bar and voice whose overrides satisfy
the §3 span invariant, the rest decomposition emits an ordered sequence
of tokens (note spans, rest spans, spacers) whose step lengths sum
exactly to `stepsPerBar`, covering every step of the bar by exactly one
token (no overlap, no gap); every step at which a hit of that voice
starts is emitted as exactly one note token — except that for the foot
voice at a merged step (simultaneous hand and foot starts of equal
resolved length, as computed by `buildMergedFootStartSteps`) the hit is
emitted as exactly one spacer token and no note token, the hit being
absorbed into the hand voice's note. -/
theorem rest_decomposition_of_bar (sheet : SavedSheet)
    (voicePart : VoicePart) (ov : NoteLengthOverrides)
    (barStartStep : Nat) (hInv : SpanInvariant sheet voicePart ov) :
    (((buildVoiceTickables sheet (voiceTracks voicePart) barStartStep
        voicePart ov (buildMergedFootStartSteps sheet barStartStep
          ov)).map fun e => e.2.len).sum = sheet.stepsPerBar) ∧
    (∀ s, s < sheet.stepsPerBar →
      ((buildVoiceTickables sheet (voiceTracks voicePart) barStartStep
        voicePart ov (buildMergedFootStartSteps sheet barStartStep
          ov)).countP fun e =>
            decide (e.1 ≤ s) && decide (s < e.1 + e.2.len)) = 1) ∧
    (∀ s, s < sheet.stepsPerBar →
      (∃ t ∈ voiceTracks voicePart,
        sheet.pattern t (barStartStep + s) = true) →
      ((¬(voicePart = .foot ∧ buildMergedFootStartSteps sheet barStartStep
          ov (barStartStep + s) = true)) →
        ((buildVoiceTickables sheet (voiceTracks voicePart) barStartStep
          voicePart ov (buildMergedFootStartSteps sheet barStartStep
            ov)).countP fun e => decide (e.1 = s) && e.2.isNote) = 1) ∧
      ((voicePart = .foot ∧ buildMergedFootStartSteps sheet barStartStep
          ov (barStartStep + s) = true) →
        ((buildVoiceTickables sheet (voiceTracks voicePart) barStartStep
          voicePart ov (buildMergedFootStartSteps sheet barStartStep
            ov)).countP fun e => decide (e.1 = s) && e.2.isSpacer) = 1 ∧
        ((buildVoiceTickables sheet (voiceTracks voicePart) barStartStep
          voicePart ov (buildMergedFootStartSteps sheet barStartStep
            ov)).countP fun e => decide (e.1 = s) && e.2.isNote) = 0)) := by
  refine ⟨?_, ?_, ?_⟩
  · have h := buildVoiceTickablesFrom_sum sheet (voiceTracks voicePart)
      barStartStep voicePart ov
      (buildMergedFootStartSteps sheet barStartStep ov)
      sheet.stepsPerBar 0 (by omega) (by omega)
    simpa [buildVoiceTickables] using h
  · intro s hs
    exact buildVoiceTickablesFrom_coverage sheet (voiceTracks voicePart)
      barStartStep voicePart ov
      (buildMergedFootStartSteps sheet barStartStep ov)
      sheet.stepsPerBar 0 s (by omega) (by omega) hs
  · intro s hs hhit
    exact buildVoiceTickablesFrom_hit_tokens sheet voicePart ov
      barStartStep (buildMergedFootStartSteps sheet barStartStep ov) hInv
      sheet.stepsPerBar 0 s (by omega) (by omega) hs hhit

/-- Witness for C1 amended at the spec's §8 scenario: one 4/4 bar,
kick hit at step 0 with a quarter (8-step) foot override — the foot
voice's token lengths sum to the full 32 steps, and the kick hit is
emitted as exactly one note token. -/
theorem rest_decomposition_of_bar_witness :
    (((buildVoiceTickables
        { bpm := 90, timeSignature := .ts4_4, stepsPerBar := 32,
          totalBars := 1, pattern := fun t s => t = .kick ∧ s = 0 }
        (voiceTracks .foot) 0 .foot
        (fun v s => if v = .foot ∧ s = 0 then some .quarter else none)
        (buildMergedFootStartSteps
          { bpm := 90, timeSignature := .ts4_4, stepsPerBar := 32,
            totalBars := 1, pattern := fun t s => t = .kick ∧ s = 0 }
          0 (fun v s =>
            if v = .foot ∧ s = 0 then some .quarter else none))).map
        fun e => e.2.len).sum = 32) ∧
    ((buildVoiceTickables
        { bpm := 90, timeSignature := .ts4_4, stepsPerBar := 32,
          totalBars := 1, pattern := fun t s => t = .kick ∧ s = 0 }
        (voiceTracks .foot) 0 .foot
        (fun v s => if v = .foot ∧ s = 0 then some .quarter else none)
        (buildMergedFootStartSteps
          { bpm := 90, timeSignature := .ts4_4, stepsPerBar := 32,
            totalBars := 1, pattern := fun t s => t = .kick ∧ s = 0 }
          0 (fun v s =>
            if v = .foot ∧ s = 0 then some .quarter else none))).countP
        fun e => decide (e.1 = 0) && e.2.isNote) = 1 := by
  have hInv : SpanInvariant
      { bpm := 90, timeSignature := .ts4_4, stepsPerBar := 32,
        totalBars := 1, pattern := fun t s => t = .kick ∧ s = 0 }
      .foot (fun v s =>
        if v = .foot ∧ s = 0 then some .quarter else none) := by
    intro a l hov u hu1 hu2 t ht
    have ha : a = 0 := by
      by_contra hne
      simp [hne] at hov
    subst ha
    have ht2 : t = DrumTrackId.kick ∨ t = DrumTrackId.foot_hi_hat := by
      simpa [voiceTracks, FOOT_TRACKS] using ht
    rcases ht2 with h | h
    · subst h
      simp only [decide_eq_false_iff_not]
      rintro ⟨-, hu0⟩
      omega
    · subst h
      simp
  have h := rest_decomposition_of_bar
    { bpm := 90, timeSignature := .ts4_4, stepsPerBar := 32,
      totalBars := 1, pattern := fun t s => t = .kick ∧ s = 0 }
    .foot (fun v s => if v = .foot ∧ s = 0 then some .quarter else none)
    0 hInv
  refine ⟨h.1, ?_⟩
  exact ((h.2.2 0 (by norm_num) ⟨.kick, by decide, by decide⟩).1
    (by decide))

/-! ## C7: copy/paste round trip -/

theorem trackAt_trackIndexOf (t : DrumTrackId) :
    trackAt (trackIndexOf t) = t := by
  cases t <;> rfl

/-- **C7, counterexample.** Copying only the snare row at step 0 from
`sheetHiHat` (whose only hit is a closed hi-hat at step 0, carrying a
hand override there) and pasting at the same anchor does not restore
the state: the hand voice has a selected track (snare), yet its
override at step 0 — anchored at the unselected hi-hat row — is
dropped by the round trip, while the pattern itself is unchanged. The
starting state satisfies every condition the normalizer enforces. -/
theorem copy_paste_not_roundtrip :
    ((pasteSelectedBeatBlock sheetHiHat ovHand0
        (copySelectedBeatBlock sheetHiHat ovHand0 selSnare0)
        (some selSnare0) 0).map
      fun r => r.2 VoicePart.hand 0) = some none ∧
    ovHand0 VoicePart.hand 0 = some NoteLengthSteps.sixteenth ∧
    ((pasteSelectedBeatBlock sheetHiHat ovHand0
        (copySelectedBeatBlock sheetHiHat ovHand0 selSnare0)
        (some selSnare0) 0).map
      fun r => (r.1.pattern DrumTrackId.hi_hat_close 0,
        r.1.pattern DrumTrackId.snare 0)) = some (true, false) ∧
    NormalizedInvariant sheetHiHat ovHand0 := by
  refine ⟨by decide, by decide, by decide, ?_⟩
  intro v a l h
  by_cases hc : v = VoicePart.hand ∧ a = 0
  · obtain ⟨hv, ha⟩ := hc
    subst hv; subst ha
    have hl : l = NoteLengthSteps.sixteenth := by
      have := h
      simp [ovHand0] at this
      exact this.symm
    subst hl
    exact ⟨by decide, by decide, by decide,
      DrumTrackId.hi_hat_close, by decide, by decide⟩
  · simp [ovHand0, hc] at h

/-- Normalization is the identity on a map already satisfying its own
conditions, also when the sheet is replaced by one with the same
dimensions and a pointwise-equal pattern, and the map by a
pointwise-equal map. -/
theorem normalize_id_of_invariant (sheet sheet' : SavedSheet)
    (ov ov' : NoteLengthOverrides)
    (hspb : sheet'.stepsPerBar = sheet.stepsPerBar)
    (hbars : sheet'.totalBars = sheet.totalBars)
    (hpat : ∀ t s, sheet'.pattern t s = sheet.pattern t s)
    (hov : ∀ v s, ov' v s = ov v s)
    (hN : NormalizedInvariant sheet ov) (v : VoicePart) (s : Nat) :
    normalizeNoteLengthOverridesForPattern sheet' ov' v s = ov v s := by
  simp only [normalizeNoteLengthOverridesForPattern]
  rw [hov v s]
  rcases hcase : ov v s with _ | l
  · rfl
  · dsimp only
    obtain ⟨h1, h2, h3, t, htv, hhit⟩ := hN v s l hcase
    have hc : s < sheet'.stepsPerBar * sheet'.totalBars ∧
        s + l.steps ≤ sheet'.stepsPerBar * sheet'.totalBars ∧
        s + l.steps ≤
          s / sheet'.stepsPerBar * sheet'.stepsPerBar +
            sheet'.stepsPerBar ∧
        ((voiceTracks v).any fun trackId =>
          sheet'.pattern trackId s) = true := by
      rw [hspb, hbars]
      refine ⟨h1, h2, h3, List.any_eq_true.mpr ⟨t, htv, ?_⟩⟩
      rw [hpat t s]
      exact hhit
    rw [if_pos hc]

/-- **C7.** (amended) Copying a rectangular selection and pasting it at
the same anchor reproduces the original sub-grid and overrides — the
paste succeeds, the resulting pattern equals the original at every
cell, and the override map is restored exactly — provided the selection
is in bounds, the starting overrides satisfy the normalizer's
conditions, and every override of an affected voice anchored in the
selected step range is anchored at a hit on a *selected* track of its
voice. (Without the last condition the round trip drops overrides whose
anchor hit sits on an unselected track, as the counterexample shows.) -/
theorem copy_paste_roundtrip (sheet : SavedSheet)
    (ov : NoteLengthOverrides) (sel : BeatSelectionRange)
    (currentStep : Nat)
    (hts : sel.trackStart ≤ sel.trackEnd)
    (hte : sel.trackEnd < TRACKS.length)
    (hss : sel.stepStart ≤ sel.stepEnd)
    (hse : sel.stepEnd < sheet.totalSteps)
    (hN : NormalizedInvariant sheet ov)
    (hanchor : ∀ v a l, ov v a = some l →
      sel.stepStart ≤ a → a ≤ sel.stepEnd →
      (∃ t ∈ (TRACKS.drop sel.trackStart).take
          (sel.trackEnd + 1 - sel.trackStart), t ∈ voiceTracks v) →
      ∃ t ∈ (TRACKS.drop sel.trackStart).take
          (sel.trackEnd + 1 - sel.trackStart),
        t ∈ voiceTracks v ∧ sheet.pattern t a = true) :
    ∃ r, pasteSelectedBeatBlock sheet ov
        (copySelectedBeatBlock sheet ov sel) (some sel) currentStep =
          some r ∧
      (∀ t s, r.1.pattern t s = sheet.pattern t s) ∧
      (∀ v s, r.2 v s = ov v s) := by
  have hTlen : TRACKS.length = 12 := rfl
  have hse' : sel.stepEnd < sheet.stepsPerBar * sheet.totalBars := hse
  have e1 : min sel.trackStart sel.trackEnd = sel.trackStart := by omega
  have e2 : max sel.trackStart sel.trackEnd = sel.trackEnd := by omega
  have e3 : min sel.stepStart sel.stepEnd = sel.stepStart := by omega
  have e4 : max sel.stepStart sel.stepEnd = sel.stepEnd := by omega
  have hnormSel : normalizeSelectionRange sel = sel := by
    simp only [normalizeSelectionRange, e1, e2, e3, e4]
  simp only [pasteSelectedBeatBlock, copySelectedBeatBlock, hnormSel]
  have hH : min (sel.trackEnd - sel.trackStart + 1)
      (TRACKS.length - sel.trackStart) =
      sel.trackEnd + 1 - sel.trackStart := by
    rw [hTlen]
    rw [hTlen] at hte
    omega
  have hW : min (sel.stepEnd - sel.stepStart + 1)
      (sheet.stepsPerBar * sheet.totalBars - sel.stepStart) =
      sel.stepEnd - sel.stepStart + 1 := by
    omega
  rw [hH, hW, if_neg (by omega)]
  refine ⟨_, rfl, ?_, ?_⟩
  · intro t s
    dsimp only
    split_ifs with h
    · obtain ⟨ht1, ht2, hs1, hs2⟩ := h
      have g1 : sel.trackStart + (trackIndexOf t - sel.trackStart) =
          trackIndexOf t := by omega
      have g2 : sel.stepStart + (s - sel.stepStart) = s := by omega
      rw [g1, g2, trackAt_trackIndexOf]
    · rfl
  · intro v s
    dsimp only
    refine normalize_id_of_invariant sheet _ ov _ ?_ ?_ ?_ ?_ hN v s
    · rfl
    · rfl
    · intro t s'
      dsimp only
      split_ifs with h
      · obtain ⟨ht1, ht2, hs1, hs2⟩ := h
        have g1 : sel.trackStart + (trackIndexOf t - sel.trackStart) =
            trackIndexOf t := by omega
        have g2 : sel.stepStart + (s' - sel.stepStart) = s' := by omega
        rw [g1, g2, trackAt_trackIndexOf]
      · rfl
    · intro v2 s2
      dsimp only
      split
      case isFalse h => rfl
      case isTrue h =>
        obtain ⟨haff, hq1, hq2⟩ := h
        have hq2' : s2 ≤ sel.stepEnd := by omega
        rw [if_pos (show s2 - sel.stepStart <
          sel.stepEnd - sel.stepStart + 1 by omega)]
        have hrel : sel.stepStart + (s2 - sel.stepStart) = s2 := by
          omega
        rw [hrel]
        rcases hcase : ov v2 s2 with _ | l
        · rfl
        · dsimp only
          cases v2 with
          | hand =>
            obtain ⟨t0, ht0L, ht0c⟩ := List.any_eq_true.mp haff
            have ht0m : t0 ∈ voiceTracks VoicePart.hand := by
              simpa [voiceTracks] using ht0c
            obtain ⟨t, htL, htv, hhit⟩ := hanchor VoicePart.hand s2 l
              hcase hq1 hq2' ⟨t0, ht0L, ht0m⟩
            have htmem : t ∈ ((TRACKS.drop sel.trackStart).take
                (sel.trackEnd + 1 - sel.trackStart)).filter
                (fun trackId => HAND_TRACKS.contains trackId) :=
              List.mem_filter.mpr
                ⟨htL, by simpa [voiceTracks] using htv⟩
            split_ifs with hin
            · rfl
            · exfalso
              apply hin
              rw [Bool.and_eq_true]
              refine ⟨?_, List.any_eq_true.mpr ⟨t, htmem, hhit⟩⟩
              rcases hfil : ((TRACKS.drop sel.trackStart).take
                  (sel.trackEnd + 1 - sel.trackStart)).filter
                  (fun trackId => HAND_TRACKS.contains trackId) with
                  _ | ⟨x, xs⟩
              · rw [hfil] at htmem
                simp at htmem
              · rfl
          | foot =>
            obtain ⟨t0, ht0L, ht0c⟩ := List.any_eq_true.mp haff
            have ht0m : t0 ∈ voiceTracks VoicePart.foot := by
              simpa [voiceTracks] using ht0c
            obtain ⟨t, htL, htv, hhit⟩ := hanchor VoicePart.foot s2 l
              hcase hq1 hq2' ⟨t0, ht0L, ht0m⟩
            have htmem : t ∈ ((TRACKS.drop sel.trackStart).take
                (sel.trackEnd + 1 - sel.trackStart)).filter
                (fun trackId => FOOT_TRACKS.contains trackId) :=
              List.mem_filter.mpr
                ⟨htL, by simpa [voiceTracks] using htv⟩
            split_ifs with hin
            · rfl
            · exfalso
              apply hin
              rw [Bool.and_eq_true]
              refine ⟨?_, List.any_eq_true.mpr ⟨t, htmem, hhit⟩⟩
              rcases hfil : ((TRACKS.drop sel.trackStart).take
                  (sel.trackEnd + 1 - sel.trackStart)).filter
                  (fun trackId => FOOT_TRACKS.contains trackId) with
                  _ | ⟨x, xs⟩
              · rw [hfil] at htmem
                simp at htmem
              · rfl

/-- Witness for C7 amended: on `sheetSnare` (snare hit at step 0,
sixteenth hand override anchored there) copying the snare row at
step 0 and pasting at the same anchor restores both the pattern and
the override map exactly. -/
theorem copy_paste_roundtrip_witness :
    ∃ r, pasteSelectedBeatBlock sheetSnare ovHand0
        (copySelectedBeatBlock sheetSnare ovHand0 selSnare0)
        (some selSnare0) 0 = some r ∧
      (∀ t s, r.1.pattern t s = sheetSnare.pattern t s) ∧
      (∀ v s, r.2 v s = ovHand0 v s) := by
  refine copy_paste_roundtrip sheetSnare ovHand0 selSnare0 0
    (by decide) (by decide) (by decide) (by decide) ?_ ?_
  · intro v a l h
    by_cases hc : v = VoicePart.hand ∧ a = 0
    · obtain ⟨hv, ha⟩ := hc
      subst hv; subst ha
      have hl : NoteLengthSteps.sixteenth = l := by
        simpa [ovHand0] using h
      subst hl
      exact ⟨by decide, by decide, by decide,
        DrumTrackId.snare, by decide, by decide⟩
    · simp [ovHand0, hc] at h
  · intro v a l h h1 h2 hpre
    by_cases hc : v = VoicePart.hand ∧ a = 0
    · obtain ⟨hv, ha⟩ := hc
      subst hv; subst ha
      exact ⟨DrumTrackId.snare, by decide, by decide, by decide⟩
    · simp [ovHand0, hc] at h

end DrumSheet
